import Mathlib

/-!
Shallow embedding of the SmugMug-Downloader repository: `smdl.py` (the main
synchronization engine) and `retry_failed_images.py` (the recovery pass).

Pure Python helpers are translated directly into Lean functions.  The
stateful main loop is modelled by explicit state passing: the set of files
on disk is a list of paths, every HTTP request the loop issues is recorded
in an explicit trace of network calls, and log messages are collected into
lists of strings.  Fallible Python behaviour is modelled with `Except`:
`sys.exit(n)` becomes `Except.error n`, and an uncaught `KeyError` in the
main loop becomes `Except.error (PyError.keyError k)`.  Machine integers in
the SHA-256 code are `Nat` with explicit reduction modulo `2 ^ 32`.
-/

namespace Smdl

/-- Python `str.strip()`: remove leading and trailing whitespace. -/
def stripWs (s : String) : String :=
  ⟨((s.toList.dropWhile Char.isWhitespace).reverse.dropWhile Char.isWhitespace).reverse⟩

/-- Python `str.lstrip('/')`: remove all leading slashes. -/
def lstripSlash (s : String) : String :=
  ⟨s.toList.dropWhile (· == '/')⟩

/-- Python `os.path.join` for the POSIX-style paths this program builds
(the output directory has had any trailing separator removed by
`args.output.rstrip(os.sep)`, so joining always inserts one slash). -/
def joinPath (a b : String) : String := a ++ "/" ++ b

/-- Index of the last occurrence of a character, Python `str.rfind` on a
single character (as `Option Nat` instead of `-1`). -/
def rfindIdx (c : Char) : List Char → Option Nat
  | [] => none
  | x :: xs =>
    match rfindIdx c xs with
    | some i => some (i + 1)
    | none => if x == c then some 0 else none

/-- Python `str.rfind` of one character as an `Int` (`-1` when absent),
as CPython's `_splitext` uses it. -/
def rfindInt (c : Char) (p : List Char) : Int :=
  match rfindIdx c p with
  | some i => (i : Int)
  | none => -1

/-- Python `os.path.splitext` on a character list (CPython
`genericpath._splitext` with `sep = '/'`, `extsep = '.'`): split at the
last dot that lies after the last slash, unless every character between
the basename start and that dot is itself a dot. -/
def splitextL (p : List Char) : List Char × List Char :=
  if rfindInt '/' p < rfindInt '.' p then
    if ((p.take (rfindInt '.' p).toNat).drop ((rfindInt '/' p) + 1).toNat).any
        (fun c => c != '.') then
      (p.take (rfindInt '.' p).toNat, p.drop (rfindInt '.' p).toNat)
    else (p, [])
  else (p, [])

/-- Python `os.path.splitext` on strings. -/
def splitext (s : String) : String × String :=
  (⟨(splitextL s.toList).1⟩, ⟨(splitextL s.toList).2⟩)

/-- Python `os.path.basename` for POSIX paths: everything after the last
slash. -/
def basenameStr (s : String) : String :=
  match rfindIdx '/' s.toList with
  | some i => ⟨s.toList.drop (i + 1)⟩
  | none => s

/-- A plain-slash check used by splitext: a splitext input with no slash
keeps `rfindInt '/' = -1`. -/
theorem rfindInt_eq_neg_one {c : Char} {p : List Char} (h : rfindIdx c p = none) :
    rfindInt c p = -1 := by
  unfold rfindInt
  rw [h]

/-- Whether `pat` occurs at the very start of `l`. -/
def startsWithL : List Char → List Char → Bool
  | [], _ => true
  | _ :: _, [] => false
  | c :: p, d :: l => c == d && startsWithL p l

/-- First index at which `pat` occurs in the list, Python `str.find`
(as `Option Nat` instead of `-1`). -/
def findSubAux (pat : List Char) : List Char → Nat → Option Nat
  | [], i => if pat.isEmpty then some i else none
  | c :: rest, i =>
    if startsWithL pat (c :: rest) then some i else findSubAux pat rest (i + 1)

/-- Whether `pat` occurs somewhere in `s` (Python `pat in s`). -/
def containsSub (s pat : String) : Bool :=
  (findSubAux pat.toList s.toList 0).isSome

/-- Characters kept by `sanitize_filename`: the character class
`[\w\-_\. ]` of both scripts, reading `\w` over ASCII. -/
def isAllowedChar (c : Char) : Bool :=
  c.isAlphanum || c == '_' || c == '-' || c == '.' || c == ' '

/-- Per-character action of `re.sub(r'[^\w\-_\. ]', '_', ...)`. -/
def sanChar (c : Char) : Char := if isAllowedChar c then c else '_'

/-- `sanitize_filename` from both scripts:
`re.sub(r'[^\w\-_\. ]', '_', filename)`. -/
def sanitize_filename (s : String) : String := ⟨s.toList.map sanChar⟩

/-- Python truthiness of an optional string: `None` and `""` are falsy. -/
def truthy (o : Option String) : Bool := o.getD "" != ""

/-! Part: SHA-256 (`hashlib.sha256(...).hexdigest()`)

A direct functional implementation of FIPS 180-4 over `Nat`, with all
32-bit arithmetic reduced modulo `2 ^ 32`. -/

/-- The 32-bit modulus. -/
def M32 : Nat := 4294967296

/-- UTF-8 encoding of one Unicode scalar value (`str.encode('utf-8')`,
one character). -/
def charUtf8 (n : Nat) : List Nat :=
  if n < 128 then [n]
  else if n < 2048 then [192 + n / 64, 128 + n % 64]
  else if n < 65536 then [224 + n / 4096, 128 + (n / 64) % 64, 128 + n % 64]
  else [240 + n / 262144, 128 + (n / 4096) % 64, 128 + (n / 64) % 64, 128 + n % 64]

/-- UTF-8 encoding of a string as a byte list. -/
def utf8Encode (s : String) : List Nat :=
  (s.toList.map (fun c => charUtf8 c.toNat)).flatten

/-- Rotate a 32-bit word right by `n` bits. -/
def rotr32 (x n : Nat) : Nat := (x / 2 ^ n + x % 2 ^ n * 2 ^ (32 - n)) % M32

/-- Logical right shift. -/
def shr32 (x n : Nat) : Nat := x / 2 ^ n

/-- Three-way xor. -/
def xor3 (a b c : Nat) : Nat := Nat.xor (Nat.xor a b) c

/-- Bitwise complement of a 32-bit word. -/
def bnot32 (x : Nat) : Nat := 4294967295 - x

def smallSigma0 (x : Nat) : Nat := xor3 (rotr32 x 7) (rotr32 x 18) (shr32 x 3)

def smallSigma1 (x : Nat) : Nat := xor3 (rotr32 x 17) (rotr32 x 19) (shr32 x 10)

def bigSigma0 (x : Nat) : Nat := xor3 (rotr32 x 2) (rotr32 x 13) (rotr32 x 22)

def bigSigma1 (x : Nat) : Nat := xor3 (rotr32 x 6) (rotr32 x 11) (rotr32 x 25)

def chF (e f g : Nat) : Nat := Nat.xor (Nat.land e f) (Nat.land (bnot32 e) g)

def majF (a b c : Nat) : Nat := xor3 (Nat.land a b) (Nat.land a c) (Nat.land b c)

/-- Big-endian byte expansion of a number into `k` bytes. -/
def natToBytesBE : Nat → Nat → List Nat
  | 0, _ => []
  | k + 1, n => natToBytesBE k (n / 256) ++ [n % 256]

/-- SHA-256 message padding: `0x80`, zeros, then the 64-bit big-endian
bit length, to a multiple of 64 bytes. -/
def sha256pad (msg : List Nat) : List Nat :=
  let len := msg.length
  let r := (len + 1) % 64
  let zeros := (56 + 64 - r) % 64
  msg ++ [128] ++ List.replicate zeros 0 ++ natToBytesBE 8 (len * 8)

/-- Big-endian 32-bit word from up to four bytes. -/
def word4 (l : List Nat) : Nat := l.foldl (fun a b => a * 256 + b) 0

/-- Group a byte list into big-endian 32-bit words (fuel-indexed). -/
def chunkWords : Nat → List Nat → List Nat
  | 0, _ => []
  | _ + 1, [] => []
  | k + 1, l => word4 (l.take 4) :: chunkWords k (l.drop 4)

/-- Group a word list into 16-word blocks (fuel-indexed). -/
def chunk16 : Nat → List Nat → List (List Nat)
  | 0, _ => []
  | _ + 1, [] => []
  | k + 1, l => l.take 16 :: chunk16 k (l.drop 16)

/-- One step of the message-schedule extension. -/
def scheduleStep (ws : List Nat) : List Nat :=
  let n := ws.length
  let x := (smallSigma1 (ws.getD (n - 2) 0) + ws.getD (n - 7) 0 +
            smallSigma0 (ws.getD (n - 15) 0) + ws.getD (n - 16) 0) % M32
  ws ++ [x]

/-- Extend 16 words to the 64-word message schedule. -/
def schedule (w16 : List Nat) : List Nat :=
  (List.range 48).foldl (fun ws _ => scheduleStep ws) w16

/-- The SHA-256 round constants (FIPS 180-4 §4.2.2, written in decimal). -/
def sha256K : List Nat :=
  [1116352408, 1899447441, 3049323471, 3921009573, 961987163, 1508970993,
   2453635748, 2870763221, 3624381080, 310598401, 607225278, 1426881987,
   1925078388, 2162078206, 2614888103, 3248222580, 3835390401, 4022224774,
   264347078, 604807628, 770255983, 1249150122, 1555081692, 1996064986,
   2554220882, 2821834349, 2952996808, 3210313671, 3336571891, 3584528711,
   113926993, 338241895, 666307205, 773529912, 1294757372, 1396182291,
   1695183700, 1986661051, 2177026350, 2456956037, 2730485921, 2820302411,
   3259730800, 3345764771, 3516065817, 3600352804, 4094571909, 275423344,
   430227734, 506948616, 659060556, 883997877, 958139571, 1322822218,
   1537002063, 1747873779, 1955562222, 2024104815, 2227730452, 2361852424,
   2428436474, 2756734187, 3204031479, 3329325298]

/-- The eight working variables of the compression function. -/
structure Hash8 where
  a : Nat
  b : Nat
  c : Nat
  d : Nat
  e : Nat
  f : Nat
  g : Nat
  h : Nat
deriving Repr, DecidableEq

/-- One round of the compression function. -/
def compressStep (st : Hash8) (kw : Nat × Nat) : Hash8 :=
  let t1 := (st.h + bigSigma1 st.e + chF st.e st.f st.g + kw.1 + kw.2) % M32
  let t2 := (bigSigma0 st.a + majF st.a st.b st.c) % M32
  ⟨(t1 + t2) % M32, st.a, st.b, st.c, (st.d + t1) % M32, st.e, st.f, st.g⟩

/-- Process one 512-bit block. -/
def compressBlock (st : Hash8) (block : List Nat) : Hash8 :=
  let w := schedule block
  let r := (sha256K.zip w).foldl compressStep st
  ⟨(st.a + r.a) % M32, (st.b + r.b) % M32, (st.c + r.c) % M32, (st.d + r.d) % M32,
   (st.e + r.e) % M32, (st.f + r.f) % M32, (st.g + r.g) % M32, (st.h + r.h) % M32⟩

/-- The SHA-256 initial hash value (FIPS 180-4 §5.3.3, written in
decimal). -/
def sha256init : Hash8 :=
  ⟨1779033703, 3144134277, 1013904242, 2773480762,
   1359893119, 2600822924, 528734635, 1541459225⟩

/-- The eight 32-bit words of the SHA-256 digest of a string. -/
def sha256words (s : String) : List Nat :=
  let bytes := sha256pad (utf8Encode s)
  let ws := chunkWords bytes.length bytes
  let blocks := chunk16 ws.length ws
  let r := blocks.foldl compressBlock sha256init
  [r.a, r.b, r.c, r.d, r.e, r.f, r.g, r.h]

/-- Lowercase hexadecimal digit. -/
def hexDigitChar (n : Nat) : Char := "0123456789abcdef".toList.getD n '0'

/-- Eight lowercase hex characters of one 32-bit word, most significant
nibble first. -/
def wordHex (w : Nat) : List Char :=
  (List.range 8).map (fun i => hexDigitChar (w / 2 ^ (4 * (7 - i)) % 16))

/-- `hashlib.sha256(s.encode('utf-8')).hexdigest()`. -/
def sha256hex (s : String) : String :=
  ⟨((sha256words s).map wordHex).flatten⟩

/-! Part: Data model of the catalog API responses

The JSON the scripts consume is modelled by structures whose `Option`
fields record whether the corresponding dictionary key is present.
`dict.get(k, default)` becomes `Option.getD`; a bare subscript `d[k]` on a
missing key is an uncaught `KeyError`, modelled as `Except.error`. -/

/-- An uncaught Python exception aborting the process. -/
inductive PyError
  | keyError (key : String)
deriving Repr, DecidableEq

/-- One entry of the album list (`Response.AlbumList[i]`). -/
structure Album where
  name : Option String
  urlPath : Option String
  uri : Option String
deriving Repr, DecidableEq

/-- One image record (`Response.AlbumImage[i]`).  `uris` is the `Uris`
dictionary, mapping an asset kind (for example `LargestVideo`) to that
entry's descriptor `Uri` string. -/
structure Image where
  archivedMD5 : Option String
  md5Sum : Option String
  id : Option String
  uri : Option String
  fileName : Option String
  archivedUri : Option String
  uris : Option (List (String × String))
deriving Repr, DecidableEq

/-- The `Pages` object of an image-list response. -/
structure PagesObj where
  nextPage : Option String
deriving Repr, DecidableEq

/-- The `Response` body of an image-list response. -/
structure RespBody where
  albumImage : Option (List Image)
  pages : Option PagesObj
deriving Repr, DecidableEq

/-- An image-list (or next-page) response envelope. -/
structure PageResp where
  response : Option RespBody
deriving Repr, DecidableEq

/-- A media-descriptor response (`image_req`): `Response` maps the asset
kind back to an entry whose `Url` field is the final download URL. -/
structure MediaResp where
  response : Option (List (String × Option String))
deriving Repr, DecidableEq

/-- The `Response` body of the album-list request. -/
structure AlbumsBody where
  albumList : Option (List Album)
deriving Repr, DecidableEq

/-- The album-list response envelope. -/
structure AlbumsResp where
  response : Option AlbumsBody
deriving Repr, DecidableEq

/-- One network request issued by the main loop: a metadata fetch through
`get_json`, or a streaming asset download through `requests.get`. -/
inductive NetCall
  | metaFetch (url : String)
  | assetGet (url : String)
deriving Repr, DecidableEq

/-- The remote side, as seen through the loop's three kinds of requests.
Each field gives the already-retried result of `get_json` (`none` is the
sentinel for an exhausted retry loop), and `fetchAsset` tells whether the
streaming download of a URL succeeds. -/
structure Net where
  fetchPage : String → Option PageResp
  fetchMedia : String → Option MediaResp
  fetchAsset : String → Bool

/-! Part: `get_json` (smdl.py lines 98-118)

One attempt of the loop body either succeeds with parsed JSON or fails;
the ways it can fail (`requests` exception, `raise_for_status`, missing
`<pre>` block, `json.loads` error) are the constructors of `FetchErr`. -/

/-- One way a single `get_json` attempt can fail. -/
inductive FetchErr
  | netError
  | httpStatus (code : Nat)
  | noPreBlock
  | parseError
deriving Repr, DecidableEq

/-- The retry loop of `get_json`, indexed by the attempt number and the
remaining fuel (`num_retries` minus attempts already made).  Returns the
parsed payload (or `none` after exhausting the attempts) together with
the number of attempts actually issued. -/
def getJsonLoop {α : Type} (tryOnce : Nat → Except FetchErr α) : Nat → Nat → Option α × Nat
  | _, 0 => (none, 0)
  | i, fuel + 1 =>
    match tryOnce i with
    | .ok j => (some j, 1)
    | .error _ =>
      let r := getJsonLoop tryOnce (i + 1) fuel
      (r.1, r.2 + 1)

/-- `get_json`: up to `num_retries = 5` attempts, returning `None` after
the last failure instead of raising. -/
def get_json {α : Type} (tryOnce : Nat → Except FetchErr α) : Option α × Nat :=
  getJsonLoop tryOnce 0 5

/-! Part: Identity derivation (smdl.py lines 192-203) -/

/-- The `unique_id` derivation of the per-image loop:
`image.get('ArchivedMD5') or image.get('MD5Sum')`, else `image.get('id')`,
else `hashlib.sha256` of a non-empty `Uri`; `none` means the image is
skipped. -/
def deriveUniqueId (img : Image) : Option String :=
  let uid := if truthy img.archivedMD5 then img.archivedMD5 else img.md5Sum
  if truthy uid then uid
  else if truthy img.id then img.id
  else
    let imageUri := img.uri.getD ""
    if imageUri != "" then some (sha256hex imageUri) else none

/-- The log lines the `unique_id` derivation emits (the warning of the
URI-hash fallback, and the error of the skip branch). -/
def deriveIdLogs (albumName : String) (img : Image) : List String :=
  let uid := if truthy img.archivedMD5 then img.archivedMD5 else img.md5Sum
  if truthy uid then []
  else if truthy img.id then []
  else if img.uri.getD "" != "" then
    ["Image in album '" ++ albumName ++
     "' is missing 'id' and 'ArchivedMD5'. Using hash of 'Uri' as unique identifier."]
  else
    ["Image in album '" ++ albumName ++
     "' is missing 'id', 'ArchivedMD5', and 'Uri'. Skipping image."]

/-- Modelled from the spec's words (§4.1 `deriveId` contract), for the
refinement half of claim C2: first *available* source wins, where a
source is available when it carries a non-empty value — archived
checksum, then alternate checksum, then catalog id, then the SHA-256
digest of the image's `Uri`. -/
def deriveIdSpec (img : Image) : Option String :=
  if truthy img.archivedMD5 then img.archivedMD5
  else if truthy img.md5Sum then img.md5Sum
  else if truthy img.id then img.id
  else if truthy img.uri then some (sha256hex (img.uri.getD ""))
  else none

/-- Filename construction (smdl.py lines 206-211): sanitize the whole
`FileName`, split off the extension, splice in the first 8 characters of
the unique id. -/
def unique_filename (img : Image) (uid : String) : String :=
  (splitext (sanitize_filename (img.fileName.getD "unknown_filename"))).1 ++ "_" ++
  uid.take 8 ++ (splitext (sanitize_filename (img.fileName.getD "unknown_filename"))).2

/-- The destination path of an image inside an album directory. -/
def destPath (albumPath : String) (img : Image) (uid : String) : String :=
  joinPath albumPath (unique_filename img uid)

/-! Part: Download-URL resolution (smdl.py lines 217-237) -/

/-- Outcome of the download-URL resolution for one image. -/
inductive ResolveOut
  | url (u : String)
  | skipFetchFail (descUri : String)
  | skipNoUrl
deriving Repr, DecidableEq

/-- The `largest_media` selection (lines 218-224): `LargestVideo`, else
`ImageDownload`, else `LargestImage`, by key presence in `image["Uris"]`. -/
def largestMediaKey (uris : List (String × String)) : Option String :=
  if (uris.lookup "LargestVideo").isSome then some "LargestVideo"
  else if (uris.lookup "ImageDownload").isSome then some "ImageDownload"
  else if (uris.lookup "LargestImage").isSome then some "LargestImage"
  else none

/-- The `else` branch of line 232-237: fall back to `ArchivedUri`,
skipping the image when that is falsy as well. -/
def archivedFallback (img : Image) : Except PyError (ResolveOut × List NetCall) :=
  if truthy img.archivedUri then .ok (.url (img.archivedUri.getD ""), [])
  else .ok (.skipNoUrl, [])

/-- Lines 217-237 of the per-image loop.  `image["Uris"]` on a record
without a `Uris` key is an uncaught `KeyError`; so are the subscripts
into a malformed media-descriptor response.  The returned call list
records the extra `get_json` request the resolver issues. -/
def resolve (fetchMedia : String → Option MediaResp) (img : Image) :
    Except PyError (ResolveOut × List NetCall) :=
  match img.uris with
  | none => .error (.keyError "Uris")
  | some uris =>
    match largestMediaKey uris with
    | some k =>
      match uris.lookup k with
      | some descUri =>
        match fetchMedia descUri with
        | none => .ok (.skipFetchFail descUri, [.metaFetch descUri])
        | some resp =>
          match resp.response with
          | none => .error (.keyError "Response")
          | some entries =>
            match entries.lookup k with
            | none => .error (.keyError k)
            | some none => .error (.keyError "Url")
            | some (some u) => .ok (.url u, [.metaFetch descUri])
      | none => archivedFallback img
    | none => archivedFallback img

/-! Part: The per-image step (smdl.py lines 191-250) -/

/-- What happened to one image. -/
inductive ImgOutcome
  | skippedNoId
  | skippedExists
  | skippedFetchFail (descUri : String)
  | skippedNoUrl
  | downloaded (path : String)
  | failedDownload (url : String)
deriving Repr, DecidableEq

/-- Result of processing one image: the new file set, the network calls
issued, the log messages emitted, and the outcome. -/
structure ImgStep where
  fs : List String
  calls : List NetCall
  logs : List String
  outcome : ImgOutcome
deriving Repr, DecidableEq

/-- Lines 239-250 given a successful resolution: skip cases produce their
log lines; a resolved URL is streamed, the asset request being recorded
whether or not it succeeds, and a failure logs the
`Could not fetch image from <url>: ...` line. -/
def afterResolve (net : Net) (albumName albumPath : String) (fs : List String)
    (img : Image) (uid : String) : ResolveOut × List NetCall → ImgStep
  | (.skipFetchFail d, calls) =>
    ⟨fs, calls, deriveIdLogs albumName img ++
      ["Could not retrieve image data for " ++ d ++ ". Skipping image."],
      .skippedFetchFail d⟩
  | (.skipNoUrl, calls) =>
    ⟨fs, calls, deriveIdLogs albumName img ++
      ["No download URL found for image '" ++ unique_filename img uid ++
       "' in album '" ++ albumName ++ "'. Skipping image."], .skippedNoUrl⟩
  | (.url u, calls) =>
    if net.fetchAsset u then
      ⟨joinPath albumPath (unique_filename img uid) :: fs, calls ++ [.assetGet u],
        deriveIdLogs albumName img ++
          ["Downloaded image: " ++ joinPath albumPath (unique_filename img uid)],
        .downloaded (joinPath albumPath (unique_filename img uid))⟩
    else
      ⟨fs, calls ++ [.assetGet u], deriveIdLogs albumName img ++
        ["Could not fetch image from " ++ u ++ ": error"], .failedDownload u⟩

/-- The per-image step once a unique id has been derived (lines 206-250):
build the destination path, skip when it already exists, resolve the
download URL, then apply `afterResolve`. -/
def processImageWithId (net : Net) (albumName albumPath : String) (fs : List String)
    (img : Image) (uid : String) : Except PyError ImgStep :=
  if joinPath albumPath (unique_filename img uid) ∈ fs then
    .ok ⟨fs, [], deriveIdLogs albumName img, .skippedExists⟩
  else
    match resolve net.fetchMedia img with
    | .error e => .error e
    | .ok rc => .ok (afterResolve net albumName albumPath fs img uid rc)

/-- One iteration of the per-image loop (lines 191-250): derive the
unique id (skip with an error log when impossible), then run the rest of
the step. -/
def processImage (net : Net) (albumName albumPath : String) (fs : List String)
    (img : Image) : Except PyError ImgStep :=
  match deriveUniqueId img with
  | none => .ok ⟨fs, [], deriveIdLogs albumName img, .skippedNoId⟩
  | some uid => processImageWithId net albumName albumPath fs img uid

/-- The per-image loop over the merged image list of one album. -/
def processImages (net : Net) (albumName albumPath : String) :
    List String → List Image → Except PyError (List String × List NetCall × List ImgOutcome)
  | fs, [] => .ok (fs, [], [])
  | fs, img :: rest =>
    match processImage net albumName albumPath fs img with
    | .error e => .error e
    | .ok st =>
      match processImages net albumName albumPath st.fs rest with
      | .error e => .error e
      | .ok (fs', cs, os) => .ok (fs', st.calls ++ cs, st.outcome :: os)

/-! Part: Pagination (smdl.py lines 179-188) -/

/-- The `AlbumImage` items of a response,
`data.get("Response", {}).get("AlbumImage", [])`. -/
def pageImages (p : PageResp) : List Image :=
  match p.response with
  | none => []
  | some b => b.albumImage.getD []

/-- The `while next_page_url:` loop, fuel-indexed (the Python loop has no
termination guarantee of its own).  `.ok none` means the fuel ran out;
otherwise the result carries the merged list, the page-fetch calls, and
whether pagination was aborted by a failed fetch (`break` at line 185).
A falsy (`None` or empty) token ends the loop normally. -/
def paginateLoop (fetch : String → Option PageResp) :
    Nat → List Image → Option String →
    Except PyError (Option (List Image × List NetCall × Bool))
  | _, images, none => .ok (some (images, [], false))
  | 0, images, some url =>
    if url = "" then .ok (some (images, [], false)) else .ok none
  | fuel + 1, images, some url =>
    if url = "" then .ok (some (images, [], false))
    else
      match fetch url with
      | none => .ok (some (images, [NetCall.metaFetch url], true))
      | some nd =>
        match nd.response with
        | none => .error (.keyError "Response")
        | some body =>
          match body.pages with
          | none => .error (.keyError "Pages")
          | some pg =>
            match paginateLoop fetch fuel (images ++ body.albumImage.getD []) pg.nextPage with
            | .error e => .error e
            | .ok none => .ok none
            | .ok (some (ms, cs, ab)) => .ok (some (ms, NetCall.metaFetch url :: cs, ab))

/-! Part: The per-album step (smdl.py lines 149-250) -/

/-- What happened to one album. -/
inductive AlbumOutcome
  | filtered
  | noUrlPath
  | imagesFetchFail
  | noImages
  | outOfFuel (first : List Image)
  | processed (merged : List Image) (aborted : Bool) (outs : List ImgOutcome)
deriving Repr, DecidableEq

/-- Result of processing one album. -/
structure AlbumRes where
  fs : List String
  calls : List NetCall
  outcome : AlbumOutcome
deriving Repr, DecidableEq

/-- One iteration of the album loop: name filter, `UrlPath` check, first
image-page fetch (skip the album on the `None` sentinel), empty-list
check, pagination, then the per-image loop.  Directory creation is
modelled as always succeeding. -/
def processAlbum (net : Net) (specificAlbums : List String) (outputDir : String)
    (fuel : Nat) (fs : List String) (album : Album) : Except PyError AlbumRes :=
  if specificAlbums ≠ [] ∧ stripWs (album.name.getD "Unnamed_Album") ∉ specificAlbums then
    .ok ⟨fs, [], .filtered⟩
  else if lstripSlash (album.urlPath.getD "") = "" then .ok ⟨fs, [], .noUrlPath⟩
  else
    match net.fetchPage (album.uri.getD "None" ++ "!images") with
    | none =>
      .ok ⟨fs, [NetCall.metaFetch (album.uri.getD "None" ++ "!images")], .imagesFetchFail⟩
    | some d =>
      if pageImages d = [] then
        .ok ⟨fs, [NetCall.metaFetch (album.uri.getD "None" ++ "!images")], .noImages⟩
      else
        match d.response with
        | none => .error (.keyError "Response")
        | some body =>
          match body.pages with
          | none => .error (.keyError "Pages")
          | some pg =>
            match paginateLoop net.fetchPage fuel (pageImages d) pg.nextPage with
            | .error e => .error e
            | .ok none =>
              .ok ⟨fs, [NetCall.metaFetch (album.uri.getD "None" ++ "!images")],
                   .outOfFuel (pageImages d)⟩
            | .ok (some (merged, pcalls, aborted)) =>
              match processImages net (stripWs (album.name.getD "Unnamed_Album"))
                  (joinPath outputDir (lstripSlash (album.urlPath.getD ""))) fs merged with
              | .error e => .error e
              | .ok (fs', ics, outs) =>
                .ok ⟨fs', NetCall.metaFetch (album.uri.getD "None" ++ "!images") ::
                      (pcalls ++ ics), .processed merged aborted outs⟩

/-- The album loop (`for album in album_list`). -/
def runAlbums (net : Net) (specificAlbums : List String) (outputDir : String)
    (fuel : Nat) :
    List String → List Album → Except PyError (List String × List NetCall × List AlbumOutcome)
  | fs, [] => .ok (fs, [], [])
  | fs, a :: rest =>
    match processAlbum net specificAlbums outputDir fuel fs a with
    | .error e => .error e
    | .ok ar =>
      match runAlbums net specificAlbums outputDir fuel ar.fs rest with
      | .error e => .error e
      | .ok (fs', cs, os) => .ok (fs', ar.calls ++ cs, ar.outcome :: os)

/-! Part: Album-list processing (smdl.py lines 130-146) -/

/-- The fatal top-level phase: a `None` album-list fetch, a missing
`Response`/`AlbumList` key (the `except KeyError` branch), and an empty
album list all call `sys.exit(1)`. -/
def mainAlbumsPhase (albumsData : Option AlbumsResp) : Except Nat (List Album) :=
  match albumsData with
  | none => .error 1
  | some d =>
    match d.response with
    | none => .error 1
    | some body =>
      match body.albumList with
      | none => .error 1
      | some l => if l = [] then .error 1 else .ok l

/-! Part: retry_failed_images.py -/

/-- `get_unique_id` (lines 40-44): the first 8 characters of the SHA-256
hex digest of the URL. -/
def get_unique_id (url : String) : String :=
  (sha256hex url).take 8

/-- `get_image_filename` (lines 46-54): basename, split the extension
first, then sanitize only the name part. -/
def get_image_filename (url : String) : String :=
  let basename := basenameStr url
  let r := splitext basename
  let uid := get_unique_id url
  sanitize_filename r.1 ++ "_" ++ uid ++ r.2

/-! Part: `extract_album_path` (lines 111-120)

`re.search(r'photos/(.+)/D', url)`: the leftmost start position at which
the whole pattern matches; the greedy `(.+)` makes the group run to the
last `/D` reachable without crossing a newline (`.` does not match
`'\n'`). -/

/-- Whether `photos/` occurs at position `i`. -/
def photosAt (s : List Char) (i : Nat) : Bool :=
  startsWithL "photos/".toList (s.drop i)

/-- Whether position `j` can end the group: `/D` occurs at `j`, the group
`s[i+7..j)` is non-empty, and contains no newline. -/
def validGroupEnd (s : List Char) (i j : Nat) : Bool :=
  startsWithL "/D".toList (s.drop j) && decide (i + 8 ≤ j) &&
    ((s.take j).drop (i + 7)).all (fun c => c != '\n')

/-- The greedy group end for a match starting at `i`: the largest valid
`j`. -/
def bestJ (s : List Char) (i : Nat) : Option Nat :=
  ((List.range (s.length + 1)).filter (fun j => validGroupEnd s i j)).getLast?

/-- The leftmost match of `photos/(.+)/D`: the smallest start position
that admits a group end, paired with its greedy group end. -/
def firstMatch (s : List Char) : Option (Nat × Nat) :=
  (((List.range (s.length + 1)).filter
      (fun i => photosAt s i && (bestJ s i).isSome)).head?).bind
    (fun i => (bestJ s i).map (fun j => (i, j)))

/-- `extract_album_path`: the matched group, or `"unknown_album"` when
the pattern does not match. -/
def extract_album_path (url : String) : String :=
  match firstMatch url.toList with
  | some ij => ⟨(url.toList.take ij.2).drop (ij.1 + 7)⟩
  | none => "unknown_album"

/-! Part: `download_image` (lines 73-109) -/

/-- What happened to one retried image. -/
inductive RetryOutcome
  | skippedExists
  | downloaded (path : String)
  | failed (url : String)
deriving Repr, DecidableEq

/-- Result of one `download_image` call. -/
structure RetryStep where
  fs : List String
  calls : List NetCall
  logs : List String
  outcome : RetryOutcome
deriving Repr, DecidableEq

/-- The destination path `download_image` computes for a URL. -/
def retryImagePath (outputDir url : String) : String :=
  joinPath (joinPath outputDir (extract_album_path url)) (get_image_filename url)

/-- `download_image`: re-derive the album path and filename from the URL,
skip without any network call when the destination exists, otherwise
stream the asset (logging the failure line on error).  Directory creation
is modelled as always succeeding. -/
def download_image (assetOk : String → Bool) (outputDir : String)
    (fs : List String) (url : String) : RetryStep :=
  if retryImagePath outputDir url ∈ fs then
    ⟨fs, [], ["Image already exists: " ++ retryImagePath outputDir url ++ ". Skipping."],
     .skippedExists⟩
  else if assetOk url then
    ⟨retryImagePath outputDir url :: fs, [.assetGet url],
     ["Downloading image: " ++ url,
      "Downloaded image: " ++ retryImagePath outputDir url],
     .downloaded (retryImagePath outputDir url)⟩
  else
    ⟨fs, [.assetGet url],
     ["Downloading image: " ++ url, "Could not fetch image from " ++ url ++ ": error"],
     .failed url⟩

/-! Part: `retry_failed_images` (lines 56-71) -/

/-- The marker substring the scanner looks for in each log line. -/
def logMarker : String := "ERROR - Could not fetch image"

/-- The scan loop over the log lines: for every line containing the
marker, find the first occurrence of `http` and, when present, take the
rest of the line (stripped) as the URL to retry. -/
def scanLog : List String → List String
  | [] => []
  | line :: rest =>
    let tail := scanLog rest
    if containsSub line logMarker then
      match findSubAux "http".toList line.toList 0 with
      | some i => stripWs ⟨line.toList.drop i⟩ :: tail
      | none => tail
    else tail

/-- A spec-side description of one line's contribution to the scan, used
to characterize `scanLog` as a `filterMap`. -/
def extractUrl? (line : String) : Option String :=
  if containsSub line logMarker then
    (findSubAux "http".toList line.toList 0).map (fun i => stripWs ⟨line.toList.drop i⟩)
  else none

/-- `retry_failed_images`: a missing log file is fatal (`sys.exit(1)`);
otherwise the scan produces the list of URLs for which `download_image`
is invoked, in line order. -/
def retry_failed_images (logExists : Bool) (lines : List String) :
    Except Nat (List String) :=
  if logExists then .ok (scanLog lines) else .error 1

/-! Part: Specification-side predicates and test fixtures -/

/-- A well-formed page response: `Response` present, `AlbumImage` list,
`Pages` with an optional next-page token. -/
def mkPage (items : List Image) (next : Option String) : PageResp :=
  ⟨some ⟨some items, some ⟨next⟩⟩⟩

/-- A server-side chain of well-formed pages: starting from `next`, each
token fetches one page whose items are the corresponding entry, and the
last page carries a falsy token. -/
inductive PageChain (fetch : String → Option PageResp) :
    Option String → List (List Image) → Prop
  | nil (next : Option String) : next.getD "" = "" → PageChain fetch next []
  | cons (url : String) (items : List Image) (nxt : Option String)
      (rest : List (List Image)) :
      url ≠ "" → fetch url = some (mkPage items nxt) → PageChain fetch nxt rest →
      PageChain fetch (some url) (items :: rest)

/-- A chain of well-formed pages that ends at a token whose fetch returns
the unavailable sentinel. -/
inductive PageChainFail (fetch : String → Option PageResp) :
    Option String → List (List Image) → String → Prop
  | here (url : String) : url ≠ "" → fetch url = none →
      PageChainFail fetch (some url) [] url
  | step (url : String) (items : List Image) (nxt : Option String)
      (rest : List (List Image)) (bad : String) :
      url ≠ "" → fetch url = some (mkPage items nxt) → PageChainFail fetch nxt rest bad →
      PageChainFail fetch (some url) (items :: rest) bad

/-- Executable crash-freedom of `resolve` for one image: the `Uris`
mapping is present and, when the resolver's extra fetch succeeds, the
response carries the requested key with a `Url`. -/
def resolveOk (fetchMedia : String → Option MediaResp) (img : Image) : Bool :=
  match img.uris with
  | none => false
  | some uris =>
    match largestMediaKey uris with
    | none => true
    | some k =>
      match uris.lookup k with
      | none => true
      | some d =>
        match fetchMedia d with
        | none => true
        | some resp =>
          match resp.response with
          | none => false
          | some entries =>
            match entries.lookup k with
            | some (some _) => true
            | some none => false
            | none => false

/-- A page response whose `Response` and `Pages` keys are present. -/
def pageWF (p : PageResp) : Prop :=
  ∃ body, p.response = some body ∧ body.pages.isSome = true

/-- Well-formed remote state: every page the server returns has its
`Response`/`Pages` structure, and every image it lists admits a
crash-free resolution. -/
def NetWF (net : Net) : Prop :=
  ∀ u p, net.fetchPage u = some p →
    pageWF p ∧ ∀ img ∈ pageImages p, resolveOk net.fetchMedia img = true

/-- A trace with no asset download in it. -/
def assetFree (calls : List NetCall) : Prop :=
  ∀ u, NetCall.assetGet u ∉ calls

/-- After a completed first run with final file set `fsF`, an image is
settled: whenever it has a derived id, either its destination is already
on disk or its resolution deterministically skips it. -/
def imgSettled (net : Net) (albumPath : String) (fsF : List String) (img : Image) : Prop :=
  ∀ uid, deriveUniqueId img = some uid →
    destPath albumPath img uid ∈ fsF
    ∨ (∃ d c, resolve net.fetchMedia img = .ok (.skipFetchFail d, c))
    ∨ (∃ c, resolve net.fetchMedia img = .ok (.skipNoUrl, c))

/-- A concrete attempt oracle: two network errors, then success. -/
def tryTwiceThenOk : Nat → Except FetchErr Nat :=
  fun i => if i < 2 then .error .netError else .ok 7

/-- An image record with no metadata at all. -/
def imgNone : Image := ⟨none, none, none, none, none, none, none⟩

/-- A remote side that answers nothing. -/
def netTrivial : Net := ⟨fun _ => none, fun _ => none, fun _ => false⟩

/-- An image whose filename has a forbidden character inside its
extension. -/
def imgBadExt : Image := ⟨none, none, none, none, some "photo.j?pg", none, none⟩

/-- A named image fixture. -/
def mkImgNamed (nm : String) : Image := ⟨none, none, none, none, some nm, none, none⟩

/-- A three-page album chain: the first page (items `a`, `b`) is fetched
by the album request; `page2` and `page3` continue it. -/
def fetch3 : String → Option PageResp := fun u =>
  if u = "page2" then some (mkPage [mkImgNamed "c"] (some "page3"))
  else if u = "page3" then some (mkPage [mkImgNamed "d", mkImgNamed "e"] none)
  else none

/-- An image exposing both a `LargestVideo` and an `ImageDownload`
location. -/
def imgBothVideoImage : Image :=
  ⟨some "m1", none, none, none, some "clip.mp4", none,
   some [("LargestVideo", "descV"), ("ImageDownload", "descI")]⟩

/-- A media fetcher that answers the video descriptor with a final URL. -/
def fetchMediaVideo : String → Option MediaResp := fun u =>
  if u = "descV" then some ⟨some [("LargestVideo", some "http://final/video.mp4")]⟩
  else none

/-- An image with a derivable id but no `Uris` key at all: subscripting
`image["Uris"]` raises `KeyError`. -/
def imgNoUris : Image := ⟨some "deadbeef", none, none, none, some "a.jpg", none, none⟩

/-- A well-formed image for the second album of the C4 counterexample. -/
def imgGood : Image :=
  ⟨some "cafebabe", none, none, none, some "b.jpg", some "http://archived/b.jpg", some []⟩

/-- First album of the C4 counterexample (contains the malformed image). -/
def albBad : Album := ⟨some "A1", some "/a1", some "/album/1"⟩

/-- Second album of the C4 counterexample (entirely well-formed). -/
def albGood : Album := ⟨some "A2", some "/a2", some "/album/2"⟩

/-- A fixture for the C1 witness: an image with an archived checksum. -/
def imgC1 : Image := ⟨some "abcdef12", none, none, none, some "a.jpg", none, some []⟩

/-- A pagination chain that delivers one page (`p2`) and then fails on
the token `p3`. -/
def fetchFailAfterOne : String → Option PageResp := fun u =>
  if u = "p2" then some (mkPage [mkImgNamed "x"] (some "p3")) else none

/-- The remote side of the C4 counterexample: album 1 lists the
malformed image, album 2 a well-formed one; all asset fetches succeed. -/
def netBadUris : Net :=
  ⟨fun u =>
    if u = "/album/1!images" then some (mkPage [imgNoUris] none)
    else if u = "/album/2!images" then some (mkPage [imgGood] none)
    else none,
   fun _ => none,
   fun _ => true⟩

/-! Part: Helper lemmas -/

theorem getJsonLoop_allFail {α : Type} (tryOnce : Nat → Except FetchErr α) :
    ∀ (fuel start : Nat), (∀ k, k < fuel → ∃ e, tryOnce (start + k) = .error e) →
    getJsonLoop tryOnce start fuel = (none, fuel) := by
  intro fuel
  induction fuel with
  | zero => intro start _; rfl
  | succ n ih =>
    intro start h
    obtain ⟨e, he⟩ := h 0 (Nat.succ_pos n)
    simp only [Nat.add_zero] at he
    have hrec := ih (start + 1) (fun k hk => by
      have := h (k + 1) (by omega)
      simpa [Nat.add_assoc, Nat.add_comm 1 k] using this)
    simp [getJsonLoop, he, hrec]

theorem getJsonLoop_success {α : Type} (tryOnce : Nat → Except FetchErr α) :
    ∀ (k fuel start : Nat) (j : α), k < fuel → tryOnce (start + k) = .ok j →
    (∀ i, i < k → ∃ e, tryOnce (start + i) = .error e) →
    getJsonLoop tryOnce start fuel = (some j, k + 1) := by
  intro k
  induction k with
  | zero =>
    intro fuel start j hk hok _
    obtain ⟨f, rfl⟩ : ∃ f, fuel = f + 1 := ⟨fuel - 1, by omega⟩
    simp only [Nat.add_zero] at hok
    simp [getJsonLoop, hok]
  | succ n ih =>
    intro fuel start j hk hok herr
    obtain ⟨f, rfl⟩ : ∃ f, fuel = f + 1 := ⟨fuel - 1, by omega⟩
    obtain ⟨e, he⟩ := herr 0 (Nat.succ_pos n)
    simp only [Nat.add_zero] at he
    have hrec := ih f (start + 1) j (by omega)
      (by rw [show start + 1 + n = start + (n + 1) by omega]; exact hok)
      (fun i hi => by
        have := herr (i + 1) (by omega)
        simpa [show start + (i + 1) = start + 1 + i by omega] using this)
    simp [getJsonLoop, he, hrec]

theorem getJsonLoop_le {α : Type} (tryOnce : Nat → Except FetchErr α) :
    ∀ (fuel start : Nat), (getJsonLoop tryOnce start fuel).2 ≤ fuel := by
  intro fuel
  induction fuel with
  | zero => intro start; simp [getJsonLoop]
  | succ n ih =>
    intro start
    cases h : tryOnce start with
    | ok j => simp [getJsonLoop, h]
    | error e => simp [getJsonLoop, h]; exact ih (start + 1)

theorem startsWithL_length (pat : List Char) :
    ∀ l, startsWithL pat l = true → pat.length ≤ l.length := by
  induction pat with
  | nil => intro l _; simp
  | cons c p ih =>
    intro l h
    cases l with
    | nil => simp [startsWithL] at h
    | cons d t =>
      simp only [startsWithL, Bool.and_eq_true] at h
      have := ih t h.2
      simp; omega

theorem mem_of_head?_eq {α : Type} {l : List α} {a : α} (h : l.head? = some a) : a ∈ l := by
  cases l with
  | nil => simp at h
  | cons x xs => simp at h; simp [h]

theorem mem_of_getLast?_eq {α : Type} {l : List α} {a : α} (h : l.getLast? = some a) : a ∈ l := by
  obtain ⟨h', rfl⟩ := List.mem_getLast?_eq_getLast h
  exact List.getLast_mem h'

theorem firstMatch_eq_some {s : List Char} {i0 j0 : Nat}
    (hh : ((List.range (s.length + 1)).filter
      (fun i => photosAt s i && (bestJ s i).isSome)).head? = some i0)
    (hb : bestJ s i0 = some j0) : firstMatch s = some (i0, j0) := by
  unfold firstMatch
  rw [hh]
  show (bestJ s i0).map (fun j => (i0, j)) = some (i0, j0)
  rw [hb]
  rfl

theorem firstMatch_eq_none_head {s : List Char}
    (hh : ((List.range (s.length + 1)).filter
      (fun i => photosAt s i && (bestJ s i).isSome)).head? = none) :
    firstMatch s = none := by
  unfold firstMatch
  rw [hh]
  rfl

theorem firstMatch_eq_none_bestJ {s : List Char} {i0 : Nat}
    (hh : ((List.range (s.length + 1)).filter
      (fun i => photosAt s i && (bestJ s i).isSome)).head? = some i0)
    (hb : bestJ s i0 = none) : firstMatch s = none := by
  unfold firstMatch
  rw [hh]
  show (bestJ s i0).map (fun j => (i0, j)) = none
  rw [hb]
  rfl

/-- Valid match positions are inside `List.range (s.length + 1)`. -/
theorem validGroupEnd_lt {s : List Char} {i j : Nat} (h : validGroupEnd s i j = true) :
    j < s.length + 1 := by
  simp only [validGroupEnd, Bool.and_eq_true] at h
  have := startsWithL_length _ _ h.1.1
  simp at this
  omega

theorem photosAt_lt {s : List Char} {i : Nat} (h : photosAt s i = true) :
    i < s.length + 1 := by
  have := startsWithL_length _ _ h
  simp at this
  omega

/-! Part: Claims -/

/-- Claim C6: the metadata fetcher `get_json` issues at most 5 attempts,
counts every kind of failure (network error, bad HTTP status, missing
`<pre>` block, JSON parse error — any `FetchErr`) as one attempt, and
after exhausting all attempts returns the sentinel `none` instead of
raising; a success at attempt `k` (0-based, after `k` failed attempts of
any kind) returns the payload having made `k + 1` attempts. -/
theorem claim_C6 : ∀ (α : Type) (tryOnce : Nat → Except FetchErr α),
    (get_json tryOnce).2 ≤ 5
    ∧ ((∀ i, i < 5 → ∃ e, tryOnce i = .error e) → get_json tryOnce = (none, 5))
    ∧ (∀ k j, k < 5 → tryOnce k = .ok j → (∀ i, i < k → ∃ e, tryOnce i = .error e) →
        get_json tryOnce = (some j, k + 1)) := by
  intro α tryOnce
  refine ⟨getJsonLoop_le tryOnce 5 0, fun h => ?_, fun k j hk hok herr => ?_⟩
  · exact getJsonLoop_allFail tryOnce 5 0 (fun k hk => by simpa using h k hk)
  · exact getJsonLoop_success tryOnce k 5 0 j hk (by simpa using hok)
      (fun i hi => by simpa using herr i hi)

/-- Witness for C6: with two failures followed by a success, `get_json`
returns the payload after exactly 3 attempts. -/
theorem claim_C6_witness :
    (2 < 5 ∧ tryTwiceThenOk 2 = .ok 7 ∧ (∀ i, i < 2 → ∃ e, tryTwiceThenOk i = .error e))
    ∧ get_json tryTwiceThenOk = (some 7, 3) :=
  ⟨⟨by decide, rfl, fun i hi => ⟨.netError, by simp [tryTwiceThenOk, hi]⟩⟩,
   (claim_C6 Nat tryTwiceThenOk).2.2 2 7 (by decide) rfl
     (fun i hi => ⟨.netError, by simp [tryTwiceThenOk, hi]⟩)⟩

/-- Claim C9: when the album-list fetch succeeds but the `AlbumList` is
empty, the main script exits with status 1 (a nonzero exit) instead of
completing normally. -/
theorem claim_C9 : ∀ (r : AlbumsResp) (body : AlbumsBody),
    r.response = some body → body.albumList = some [] →
    mainAlbumsPhase (some r) = .error 1 ∧ (0 : Nat) < 1 := by
  intro r body h1 h2
  refine ⟨?_, Nat.zero_lt_one⟩
  simp [mainAlbumsPhase, h1, h2]

/-- Witness for C9: a concrete successful album-list response with an
empty list makes the run exit with status 1. -/
theorem claim_C9_witness :
    (AlbumsResp.mk (some ⟨some []⟩)).response = some ⟨some []⟩
    ∧ mainAlbumsPhase (some ⟨some ⟨some []⟩⟩) = .error 1 :=
  ⟨rfl, (claim_C9 ⟨some ⟨some []⟩⟩ ⟨some []⟩ rfl rfl).1⟩

/-- Claim C10: `extract_album_path` is total — for every URL string it
either returns the group matched between a `photos/` occurrence and a
(greedily chosen) `/D` occurrence, or the constant `"unknown_album"`
exactly when no such match exists. -/
theorem claim_C10 : ∀ url : String,
    (∃ i j, photosAt url.toList i = true
      ∧ startsWithL "/D".toList (url.toList.drop j) = true
      ∧ i + 8 ≤ j
      ∧ ((url.toList.take j).drop (i + 7)).all (fun c => c != '\n') = true
      ∧ extract_album_path url = ⟨(url.toList.take j).drop (i + 7)⟩)
    ∨ ((∀ i j, ¬(photosAt url.toList i = true ∧ validGroupEnd url.toList i j = true))
      ∧ extract_album_path url = "unknown_album") := by
  intro url
  cases h : firstMatch url.toList with
  | none =>
    right
    constructor
    · rintro i j ⟨hp, hv⟩
      have hj : j ∈ (List.range (url.toList.length + 1)).filter
          (fun j => validGroupEnd url.toList i j) := by
        rw [List.mem_filter]
        exact ⟨List.mem_range.2 (validGroupEnd_lt hv), hv⟩
      have hbj : (bestJ url.toList i).isSome := by
        unfold bestJ
        cases hg : ((List.range (url.toList.length + 1)).filter
            (fun j => validGroupEnd url.toList i j)).getLast? with
        | some _ => simp
        | none =>
          rw [List.getLast?_eq_none_iff] at hg
          rw [hg] at hj
          simp at hj
      have hi : i ∈ (List.range (url.toList.length + 1)).filter
          (fun i => photosAt url.toList i && (bestJ url.toList i).isSome) := by
        rw [List.mem_filter, Bool.and_eq_true]
        exact ⟨List.mem_range.2 (photosAt_lt hp), hp, hbj⟩
      cases hh : ((List.range (url.toList.length + 1)).filter
          (fun i => photosAt url.toList i && (bestJ url.toList i).isSome)).head? with
      | some i0 =>
        have hi0 := mem_of_head?_eq hh
        rw [List.mem_filter, Bool.and_eq_true] at hi0
        obtain ⟨j0, hb⟩ := Option.isSome_iff_exists.mp hi0.2.2
        have hfm := firstMatch_eq_some hh hb
        rw [h] at hfm
        simp at hfm
      | none =>
        rw [List.head?_eq_none_iff] at hh
        rw [hh] at hi
        simp at hi
    · unfold extract_album_path
      rw [h]
  | some ij =>
    left
    obtain ⟨i, j⟩ := ij
    cases hh : ((List.range (url.toList.length + 1)).filter
        (fun i => photosAt url.toList i && (bestJ url.toList i).isSome)).head? with
    | none =>
      have := firstMatch_eq_none_head hh
      rw [h] at this; simp at this
    | some i0 =>
      cases hb : bestJ url.toList i0 with
      | none =>
        have := firstMatch_eq_none_bestJ hh hb
        rw [h] at this; simp at this
      | some j0 =>
        have hfm := firstMatch_eq_some hh hb
        rw [h] at hfm
        simp only [Option.some.injEq, Prod.mk.injEq] at hfm
        obtain ⟨rfl, rfl⟩ := hfm
        have hi0 := mem_of_head?_eq hh
        rw [List.mem_filter, Bool.and_eq_true] at hi0
        have hj0 : j ∈ (List.range (url.toList.length + 1)).filter
            (fun j => validGroupEnd url.toList i j) := by
          unfold bestJ at hb
          exact mem_of_getLast?_eq hb
        rw [List.mem_filter] at hj0
        have hv := hj0.2
        simp only [validGroupEnd, Bool.and_eq_true, decide_eq_true_eq] at hv
        refine ⟨i, j, hi0.2.1, hv.1.1, hv.1.2, hv.2, ?_⟩
        unfold extract_album_path
        rw [h]

theorem scanLog_eq_filterMap : ∀ lines, scanLog lines = lines.filterMap extractUrl? := by
  intro lines
  induction lines with
  | nil => rfl
  | cons line rest ih =>
    cases hc : containsSub line logMarker with
    | false => simp [scanLog, extractUrl?, hc, ih]
    | true =>
      cases hf : findSubAux "http".toList line.toList 0 with
      | none =>
        have hf' : findSubAux ['h', 't', 't', 'p'] line.data 0 = none := hf
        simp [scanLog, extractUrl?, hc, hf', ih]
      | some i =>
        have hf' : findSubAux ['h', 't', 't', 'p'] line.data 0 = some i := hf
        simp [scanLog, extractUrl?, hc, hf', ih]

/-- Claim C7, amended: the scanner retries exactly those log lines that
contain the failure marker *and* an occurrence of the scheme prefix
`http` (a marker line without `http` is silently ignored); the URL is
the stripped text from the first `http` occurrence on; a missing log
file is fatal with exit status 1. -/
theorem claim_C7 :
    (∀ lines, retry_failed_images false lines = .error 1)
    ∧ (∀ lines, retry_failed_images true lines = .ok (lines.filterMap extractUrl?))
    ∧ (∀ line lines i, containsSub line logMarker = true →
        findSubAux "http".toList line.toList 0 = some i →
        scanLog (line :: lines) = stripWs ⟨line.toList.drop i⟩ :: scanLog lines)
    ∧ (∀ line lines, containsSub line logMarker = true →
        findSubAux "http".toList line.toList 0 = none →
        scanLog (line :: lines) = scanLog lines)
    ∧ (∀ line lines, containsSub line logMarker = false →
        scanLog (line :: lines) = scanLog lines) := by
  refine ⟨fun lines => rfl, fun lines => ?_, ?_, ?_, ?_⟩
  · simp [retry_failed_images, scanLog_eq_filterMap]
  · intro line lines i hc hf
    have hf' : findSubAux ['h', 't', 't', 'p'] line.data 0 = some i := hf
    simp [scanLog, hc, hf']
  · intro line lines hc hf
    have hf' : findSubAux ['h', 't', 't', 'p'] line.data 0 = none := hf
    simp [scanLog, hc, hf']
  · intro line lines hc
    simp [scanLog, hc]

/-- Witness for C7: a marker line carrying a URL is retried with the
stripped tail from the first `http` on. -/
theorem claim_C7_witness :
    containsSub "ERROR - Could not fetch image from http://a/b.jpg: x" logMarker = true
    ∧ findSubAux "http".toList
        "ERROR - Could not fetch image from http://a/b.jpg: x".toList 0 = some 35
    ∧ scanLog ["ERROR - Could not fetch image from http://a/b.jpg: x"] =
        [stripWs ⟨"ERROR - Could not fetch image from http://a/b.jpg: x".toList.drop 35⟩] :=
  ⟨rfl, rfl,
   claim_C7.2.2.1 "ERROR - Could not fetch image from http://a/b.jpg: x" [] 35 rfl rfl⟩

/-- Counterexample to C7 as stated: this line contains the failure
marker, yet the scanner performs no fetch attempt for it, because the
line contains no occurrence of `http`. -/
theorem claim_C7_counterexample :
    containsSub "x ERROR - Could not fetch image oops" logMarker = true
    ∧ retry_failed_images true ["x ERROR - Could not fetch image oops"] = .ok [] :=
  ⟨rfl, rfl⟩

theorem isAllowedChar_sanChar : ∀ c, isAllowedChar (sanChar c) = true := by
  intro c
  unfold sanChar
  split
  · assumption
  · decide

theorem sanChar_beq_dot : ∀ c, (sanChar c == '.') = (c == '.') := by
  intro c
  unfold sanChar
  split
  · rfl
  · rename_i h
    have hc : (c == '.') = false := by
      cases hcc : c == '.' with
      | false => rfl
      | true =>
        rw [beq_iff_eq] at hcc
        subst hcc
        exact absurd (by decide : isAllowedChar '.' = true) h
    rw [hc]
    rfl

theorem sanChar_beq_slash : ∀ c, (sanChar c == '/') = false := by
  intro c
  unfold sanChar
  split
  · rename_i h
    cases hcc : c == '/' with
    | false => rfl
    | true =>
      rw [beq_iff_eq] at hcc
      subst hcc
      exact absurd h (by decide)
  · rfl

theorem rfindIdx_map_dot : ∀ l : List Char, rfindIdx '.' (l.map sanChar) = rfindIdx '.' l := by
  intro l
  induction l with
  | nil => rfl
  | cons c t ih =>
    simp only [List.map_cons, rfindIdx, ih, sanChar_beq_dot]

theorem rfindIdx_map_slash : ∀ l : List Char, rfindIdx '/' (l.map sanChar) = none := by
  intro l
  induction l with
  | nil => rfl
  | cons c t ih =>
    simp only [List.map_cons, rfindIdx, ih, sanChar_beq_slash]
    rfl

theorem bne_dot_sanChar : (fun c => sanChar c != '.') = (fun c : Char => c != '.') := by
  funext c
  simp only [bne, sanChar_beq_dot]

/-- Sanitization commutes with `splitext` on slash-free inputs: because
`.` is kept fixed and both dot-ness and the absence of slashes are
preserved pointwise, the split position is unchanged. -/
theorem splitextL_map_sanChar (l : List Char) (h : rfindIdx '/' l = none) :
    splitextL (l.map sanChar) = ((splitextL l).1.map sanChar, (splitextL l).2.map sanChar) := by
  have hslash : rfindInt '/' (l.map sanChar) = -1 :=
    rfindInt_eq_neg_one (rfindIdx_map_slash l)
  have hslash' : rfindInt '/' l = -1 := rfindInt_eq_neg_one h
  have hdot : rfindInt '.' (l.map sanChar) = rfindInt '.' l := by
    unfold rfindInt
    rw [rfindIdx_map_dot]
  unfold splitextL
  rw [hslash, hslash', hdot]
  by_cases hlt : (-1 : Int) < rfindInt '.' l
  · rw [if_pos hlt, if_pos hlt]
    have htoNat : ((-1 : Int) + 1).toNat = 0 := by decide
    rw [htoNat]
    rw [← List.map_take, List.drop_zero, List.drop_zero, List.any_map]
    rw [show (((fun c => c != '.') : Char → Bool) ∘ sanChar) =
          (fun c => sanChar c != '.') from rfl]
    rw [show ((fun c => sanChar c != '.') : Char → Bool) =
          (fun c : Char => c != '.') from bne_dot_sanChar]
    cases hc : (l.take (rfindInt '.' l).toNat).any (fun c => c != '.') with
    | false => simp [hc]
    | true => simp [hc, List.map_take, List.map_drop]
  · rw [if_neg hlt, if_neg hlt]
    rfl

/-- String-level version of the commute lemma. -/
theorem splitext_sanitize (s : String) (h : rfindIdx '/' s.toList = none) :
    splitext (sanitize_filename s) =
      (sanitize_filename (splitext s).1, sanitize_filename (splitext s).2) := by
  unfold splitext
  rw [show (sanitize_filename s).toList = s.toList.map sanChar from rfl,
      splitextL_map_sanChar s.toList h]
  rfl

/-- Claim C8, amended: sanitization replaces exactly the characters
outside the allow-list with underscores, pointwise; the derived id is
never sanitized in either script; but only the recovery path applies it
to the base name alone — the main sync sanitizes the whole filename
before splitting, so the extension is sanitized as well (not preserved
verbatim). -/
theorem claim_C8 :
    (∀ s : String, (sanitize_filename s).toList.all isAllowedChar = true
       ∧ ∀ i : Nat, (sanitize_filename s).toList[i]? = (s.toList[i]?).map sanChar)
    ∧ (∀ (img : Image) (uid : String),
        rfindIdx '/' (img.fileName.getD "unknown_filename").toList = none →
        unique_filename img uid =
          sanitize_filename (splitext (img.fileName.getD "unknown_filename")).1 ++ "_" ++
          uid.take 8 ++
          sanitize_filename (splitext (img.fileName.getD "unknown_filename")).2)
    ∧ (∀ url : String, get_image_filename url =
        sanitize_filename (splitext (basenameStr url)).1 ++ "_" ++ get_unique_id url ++
        (splitext (basenameStr url)).2) := by
  refine ⟨fun s => ⟨?_, fun i => ?_⟩, fun img uid h => ?_, fun url => rfl⟩
  · rw [List.all_eq_true]
    intro c hc
    have : c ∈ s.toList.map sanChar := hc
    rw [List.mem_map] at this
    obtain ⟨c0, _, rfl⟩ := this
    exact isAllowedChar_sanChar c0
  · show (s.toList.map sanChar)[i]? = _
    rw [List.getElem?_map]
  · unfold unique_filename
    rw [splitext_sanitize _ h]

/-- Witness for C8 at a slash-free filename. -/
theorem claim_C8_witness :
    rfindIdx '/' ((Image.mk none none none none (some "My Photo?!*.jpg") none none).fileName.getD
      "unknown_filename").toList = none
    ∧ unique_filename (Image.mk none none none none (some "My Photo?!*.jpg") none none)
        "1234567890" =
      sanitize_filename (splitext "My Photo?!*.jpg").1 ++ "_" ++
        ("1234567890" : String).take 8 ++ sanitize_filename (splitext "My Photo?!*.jpg").2 :=
  ⟨rfl, claim_C8.2.1 (Image.mk none none none none (some "My Photo?!*.jpg") none none)
    "1234567890" rfl⟩

/-- Counterexample to C8 as stated: in the main sync the extension is
*not* preserved unchanged — the input extension `.j?pg` comes out as
`.j_pg` in the output filename (sanitization runs before the split). -/
theorem claim_C8_counterexample :
    (splitext "photo.j?pg").2 = ".j?pg"
    ∧ unique_filename imgBadExt "abcdefghZZ" = "photo_abcdefgh.j_pg"
    ∧ (".j_pg" : String) ≠ ".j?pg" :=
  ⟨rfl, rfl, by decide⟩

theorem deriveUniqueId_eq_spec : ∀ img, deriveUniqueId img = deriveIdSpec img := by
  intro img
  unfold deriveUniqueId deriveIdSpec
  by_cases h1 : truthy img.archivedMD5 = true
  · simp [h1]
  · by_cases h2 : truthy img.md5Sum = true
    · simp [h1, h2]
    · have h1' : img.archivedMD5.getD "" = "" := by simpa [truthy] using h1
      have h2' : img.md5Sum.getD "" = "" := by simpa [truthy] using h2
      simp [truthy, h1', h2']

theorem processImage_noId (net : Net) (an ap : String) (fs : List String) (img : Image)
    (h : deriveUniqueId img = none) :
    processImage net an ap fs img = .ok ⟨fs, [], deriveIdLogs an img, .skippedNoId⟩ := by
  unfold processImage
  rw [h]

theorem deriveIdLogs_error_mem (an : String) (img : Image)
    (h : deriveUniqueId img = none) :
    ("Image in album '" ++ an ++
      "' is missing 'id', 'ArchivedMD5', and 'Uri'. Skipping image.") ∈
      deriveIdLogs an img := by
  simp only [deriveUniqueId] at h
  simp only [deriveIdLogs]
  by_cases h1 : truthy img.archivedMD5 = true
  · simp [h1] at h
    rw [h] at h1
    simp [truthy] at h1
  · simp [h1] at h ⊢
    by_cases h2 : truthy img.md5Sum = true
    · simp [h2] at h
      rw [h] at h2
      simp [truthy] at h2
    · simp [h2] at h ⊢
      by_cases h3 : truthy img.id = true
      · simp [h3] at h
        rw [h] at h3
        simp [truthy] at h3
      · simp [h3] at h ⊢
        simp [h]

theorem sha256words_length (s : String) : (sha256words s).length = 8 := rfl

theorem wordHex_length (w : Nat) : (wordHex w).length = 8 := by
  simp [wordHex]

theorem sha256hex_length (s : String) : (sha256hex s).length = 64 := by
  show (((sha256words s).map wordHex).flatten).length = 64
  rw [List.length_flatten, List.map_map]
  rw [show (List.length ∘ wordHex) = fun _ : Nat => 8 from funext fun w => wordHex_length w]
  rw [List.map_const', sha256words_length]
  simp

theorem hexDigitChar_mem : ∀ n, n < 16 → hexDigitChar n ∈ "0123456789abcdef".toList := by
  decide

theorem sha256hex_chars (s : String) :
    ∀ c ∈ (sha256hex s).toList, c ∈ "0123456789abcdef".toList := by
  intro c hc
  have hm : c ∈ ((sha256words s).map wordHex).flatten := hc
  rw [List.mem_flatten] at hm
  obtain ⟨l, hl, hcl⟩ := hm
  rw [List.mem_map] at hl
  obtain ⟨w, _, rfl⟩ := hl
  unfold wordHex at hcl
  rw [List.mem_map] at hcl
  obtain ⟨i, _, rfl⟩ := hcl
  exact hexDigitChar_mem _ (Nat.mod_lt _ (by decide))

/-- Claim C2: the derived id follows the fixed availability precedence
(archived checksum, alternate checksum, catalog id, SHA-256 of the
`Uri`); it is a pure function of the metadata (a Lean function by
construction, and equal to the spec-side `deriveIdSpec`); the filename
splices in the id truncated to 8 characters; when no source is
available the image is skipped with an error log entry; and the hash
fallback is a 64-character lowercase hex digest. -/
theorem claim_C2 : ∀ img : Image,
    deriveUniqueId img = deriveIdSpec img
    ∧ (∀ uid, unique_filename img uid =
        (splitext (sanitize_filename (img.fileName.getD "unknown_filename"))).1 ++ "_" ++
        uid.take 8 ++
        (splitext (sanitize_filename (img.fileName.getD "unknown_filename"))).2)
    ∧ (deriveUniqueId img = none → ∀ (net : Net) (an ap : String) (fs : List String),
        processImage net an ap fs img = .ok ⟨fs, [], deriveIdLogs an img, .skippedNoId⟩
        ∧ ("Image in album '" ++ an ++
            "' is missing 'id', 'ArchivedMD5', and 'Uri'. Skipping image.") ∈
            deriveIdLogs an img)
    ∧ (∀ u : String, (sha256hex u).length = 64
        ∧ ∀ c ∈ (sha256hex u).toList, c ∈ "0123456789abcdef".toList) :=
  fun img =>
    ⟨deriveUniqueId_eq_spec img,
     fun _ => rfl,
     fun h net an ap fs =>
       ⟨processImage_noId net an ap fs img h, deriveIdLogs_error_mem an img h⟩,
     fun u => ⟨sha256hex_length u, sha256hex_chars u⟩⟩

/-- Witness for C2: the empty metadata record derives no id and is
skipped with the error log entry. -/
theorem claim_C2_witness :
    deriveUniqueId imgNone = none
    ∧ processImage netTrivial "A" "out/A" [] imgNone =
        .ok ⟨[], [], deriveIdLogs "A" imgNone, .skippedNoId⟩ :=
  ⟨rfl, ((claim_C2 imgNone).2.2.1 rfl netTrivial "A" "out/A" []).1⟩

theorem paginate_chain (fetch : String → Option PageResp) :
    ∀ (pages : List (List Image)) (next : Option String), PageChain fetch next pages →
    ∀ (acc : List Image) (fuel : Nat), pages.length ≤ fuel →
    ∃ calls, paginateLoop fetch fuel acc next =
      .ok (some (acc ++ pages.flatten, calls, false)) := by
  intro pages next hchain
  induction hchain with
  | nil next h =>
    intro acc fuel _
    refine ⟨[], ?_⟩
    cases next with
    | none => simp [paginateLoop]
    | some s =>
      have hs : s = "" := by simpa using h
      subst hs
      cases fuel with
      | zero => simp [paginateLoop]
      | succ f => simp [paginateLoop]
  | cons url items nxt rest hne hfetch _ ih =>
    intro acc fuel hlen
    obtain ⟨f, rfl⟩ : ∃ f, fuel = f + 1 := ⟨fuel - 1, by simp at hlen; omega⟩
    obtain ⟨calls, hcalls⟩ := ih (acc ++ items) f (by simp at hlen; omega)
    refine ⟨NetCall.metaFetch url :: calls, ?_⟩
    simp only [paginateLoop]
    rw [if_neg hne, hfetch]
    simp [mkPage, hcalls, List.append_assoc]

/-- Claim C3: over a well-formed page chain, the merged image list is
exactly the first page's items followed by the concatenation of the
later pages in server order (so its length is the sum of the per-page
lengths), pagination succeeds without aborting, and the loop terminates
immediately when the next-page token is absent. -/
theorem claim_C3 : ∀ (fetch : String → Option PageResp) (pages : List (List Image))
    (next : Option String) (acc : List Image) (fuel : Nat),
    PageChain fetch next pages → pages.length ≤ fuel →
    (∃ calls, paginateLoop fetch fuel acc next =
        .ok (some (acc ++ pages.flatten, calls, false))
      ∧ (acc ++ pages.flatten).length = acc.length + (pages.map List.length).sum)
    ∧ paginateLoop fetch fuel acc none = .ok (some (acc, [], false)) := by
  intro fetch pages next acc fuel hchain hlen
  obtain ⟨calls, hcalls⟩ := paginate_chain fetch pages next hchain acc fuel hlen
  refine ⟨⟨calls, hcalls, ?_⟩, by simp [paginateLoop]⟩
  rw [List.length_append, List.length_flatten]

/-- Witness for C3: a concrete 3-page album (first page `[a, b]`, then
`[c]` and `[d, e]`) merges to the 5 images in page order. -/
theorem claim_C3_witness :
    PageChain fetch3 (some "page2") [[mkImgNamed "c"], [mkImgNamed "d", mkImgNamed "e"]]
    ∧ 2 ≤ 5
    ∧ ((∃ calls, paginateLoop fetch3 5 [mkImgNamed "a", mkImgNamed "b"] (some "page2") =
          .ok (some ([mkImgNamed "a", mkImgNamed "b"] ++
            [[mkImgNamed "c"], [mkImgNamed "d", mkImgNamed "e"]].flatten, calls, false))
        ∧ ([mkImgNamed "a", mkImgNamed "b"] ++
            [[mkImgNamed "c"], [mkImgNamed "d", mkImgNamed "e"]].flatten).length =
          ([mkImgNamed "a", mkImgNamed "b"] : List Image).length +
            ([[mkImgNamed "c"], [mkImgNamed "d", mkImgNamed "e"]].map List.length).sum)
      ∧ paginateLoop fetch3 5 [mkImgNamed "a", mkImgNamed "b"] none =
          .ok (some ([mkImgNamed "a", mkImgNamed "b"], [], false))) := by
  have hchain : PageChain fetch3 (some "page2")
      [[mkImgNamed "c"], [mkImgNamed "d", mkImgNamed "e"]] :=
    .cons "page2" [mkImgNamed "c"] (some "page3") _ (by decide) rfl
      (.cons "page3" [mkImgNamed "d", mkImgNamed "e"] none [] (by decide) rfl
        (.nil none rfl))
  exact ⟨hchain, by decide,
    claim_C3 fetch3 [[mkImgNamed "c"], [mkImgNamed "d", mkImgNamed "e"]] (some "page2")
      [mkImgNamed "a", mkImgNamed "b"] 5 hchain (by decide)⟩

/-- Claim C5: the resolver prefers `LargestVideo`, then `ImageDownload`,
then `LargestImage`; when one of the three keys is present it issues
exactly one extra metadata fetch against that entry's descriptor URI,
and an unavailable fetch skips the image non-fatally; with none of the
three it falls back to `ArchivedUri`, and a falsy `ArchivedUri` skips
the image with an error log entry. -/
theorem claim_C5 : ∀ (f : String → Option MediaResp) (img : Image)
    (uris : List (String × String)), img.uris = some uris →
    (∀ d, uris.lookup "LargestVideo" = some d →
      (f d = none → resolve f img = .ok (.skipFetchFail d, [.metaFetch d]))
      ∧ (∀ es u, f d = some ⟨some es⟩ → es.lookup "LargestVideo" = some (some u) →
          resolve f img = .ok (.url u, [.metaFetch d])))
    ∧ (uris.lookup "LargestVideo" = none → ∀ d, uris.lookup "ImageDownload" = some d →
      (f d = none → resolve f img = .ok (.skipFetchFail d, [.metaFetch d]))
      ∧ (∀ es u, f d = some ⟨some es⟩ → es.lookup "ImageDownload" = some (some u) →
          resolve f img = .ok (.url u, [.metaFetch d])))
    ∧ (uris.lookup "LargestVideo" = none → uris.lookup "ImageDownload" = none →
       ∀ d, uris.lookup "LargestImage" = some d →
      (f d = none → resolve f img = .ok (.skipFetchFail d, [.metaFetch d]))
      ∧ (∀ es u, f d = some ⟨some es⟩ → es.lookup "LargestImage" = some (some u) →
          resolve f img = .ok (.url u, [.metaFetch d])))
    ∧ (uris.lookup "LargestVideo" = none → uris.lookup "ImageDownload" = none →
       uris.lookup "LargestImage" = none →
      (truthy img.archivedUri = true →
        resolve f img = .ok (.url (img.archivedUri.getD ""), []))
      ∧ (truthy img.archivedUri = false → resolve f img = .ok (.skipNoUrl, [])))
    ∧ (∀ (net : Net) (an ap : String) (fs : List String) (uid d : String)
        (c : List NetCall), deriveUniqueId img = some uid →
        joinPath ap (unique_filename img uid) ∉ fs →
        resolve net.fetchMedia img = .ok (.skipFetchFail d, c) →
        processImage net an ap fs img = .ok ⟨fs, c, deriveIdLogs an img ++
          ["Could not retrieve image data for " ++ d ++ ". Skipping image."],
          .skippedFetchFail d⟩)
    ∧ (∀ (net : Net) (an ap : String) (fs : List String) (uid : String)
        (c : List NetCall), deriveUniqueId img = some uid →
        joinPath ap (unique_filename img uid) ∉ fs →
        resolve net.fetchMedia img = .ok (.skipNoUrl, c) →
        processImage net an ap fs img = .ok ⟨fs, c, deriveIdLogs an img ++
          ["No download URL found for image '" ++ unique_filename img uid ++
           "' in album '" ++ an ++ "'. Skipping image."], .skippedNoUrl⟩) := by
  intro f img uris h
  refine ⟨fun d hLV => ⟨fun hfd => ?_, fun es u hfd hes => ?_⟩,
          fun hLV d hID => ⟨fun hfd => ?_, fun es u hfd hes => ?_⟩,
          fun hLV hID d hLI => ⟨fun hfd => ?_, fun es u hfd hes => ?_⟩,
          fun hLV hID hLI => ⟨fun ha => ?_, fun ha => ?_⟩,
          fun net an ap fs uid d c hid hnotin hres => ?_,
          fun net an ap fs uid c hid hnotin hres => ?_⟩
  · simp [resolve, largestMediaKey, h, hLV, hfd]
  · simp [resolve, largestMediaKey, h, hLV, hfd, hes]
  · simp [resolve, largestMediaKey, h, hLV, hID, hfd]
  · simp [resolve, largestMediaKey, h, hLV, hID, hfd, hes]
  · simp [resolve, largestMediaKey, h, hLV, hID, hLI, hfd]
  · simp [resolve, largestMediaKey, h, hLV, hID, hLI, hfd, hes]
  · simp [resolve, largestMediaKey, archivedFallback, h, hLV, hID, hLI, ha]
  · simp [resolve, largestMediaKey, archivedFallback, h, hLV, hID, hLI, ha]
  · have hstep : processImage net an ap fs img = processImageWithId net an ap fs img uid := by
      unfold processImage
      rw [hid]
    rw [hstep]
    unfold processImageWithId
    rw [if_neg hnotin, hres]
    rfl
  · have hstep : processImage net an ap fs img = processImageWithId net an ap fs img uid := by
      unfold processImage
      rw [hid]
    rw [hstep]
    unfold processImageWithId
    rw [if_neg hnotin, hres]
    rfl

/-- Witness for C5: with both a `LargestVideo` and an `ImageDownload`
location, the resolver selects the video location and issues exactly one
extra metadata fetch against its descriptor. -/
theorem claim_C5_witness :
    imgBothVideoImage.uris = some [("LargestVideo", "descV"), ("ImageDownload", "descI")]
    ∧ [("LargestVideo", "descV"), ("ImageDownload", "descI")].lookup "LargestVideo" =
        some "descV"
    ∧ resolve fetchMediaVideo imgBothVideoImage =
        .ok (.url "http://final/video.mp4", [.metaFetch "descV"]) :=
  ⟨rfl, rfl,
   ((claim_C5 fetchMediaVideo imgBothVideoImage
      [("LargestVideo", "descV"), ("ImageDownload", "descI")] rfl).1 "descV" rfl).2
     [("LargestVideo", some "http://final/video.mp4")] "http://final/video.mp4" rfl rfl⟩

/-- Witness for C10 at a concrete URL of the documented shape. -/
theorem claim_C10_witness :
    (∃ i j, photosAt "https://photos.smugmug.com/photos/Trip/D/x-D.jpg".toList i = true
      ∧ startsWithL "/D".toList
          ("https://photos.smugmug.com/photos/Trip/D/x-D.jpg".toList.drop j) = true
      ∧ i + 8 ≤ j
      ∧ (("https://photos.smugmug.com/photos/Trip/D/x-D.jpg".toList.take j).drop (i + 7)).all
          (fun c => c != '\n') = true
      ∧ extract_album_path "https://photos.smugmug.com/photos/Trip/D/x-D.jpg" =
          ⟨("https://photos.smugmug.com/photos/Trip/D/x-D.jpg".toList.take j).drop (i + 7)⟩)
    ∨ ((∀ i j, ¬(photosAt "https://photos.smugmug.com/photos/Trip/D/x-D.jpg".toList i = true
      ∧ validGroupEnd "https://photos.smugmug.com/photos/Trip/D/x-D.jpg".toList i j = true))
      ∧ extract_album_path "https://photos.smugmug.com/photos/Trip/D/x-D.jpg" =
          "unknown_album") :=
  claim_C10 "https://photos.smugmug.com/photos/Trip/D/x-D.jpg"

theorem assetFree_nil : assetFree [] := by
  intro u h
  cases h

theorem assetFree_meta (d : String) : assetFree [NetCall.metaFetch d] := by
  intro u h
  simp at h

theorem assetFree_append {a b : List NetCall} (ha : assetFree a) (hb : assetFree b) :
    assetFree (a ++ b) := by
  intro u h
  rw [List.mem_append] at h
  cases h with
  | inl h => exact ha u h
  | inr h => exact hb u h

theorem assetFree_cons_meta {d : String} {l : List NetCall} (hl : assetFree l) :
    assetFree (NetCall.metaFetch d :: l) := by
  intro u h
  rw [List.mem_cons] at h
  cases h with
  | inl h => cases h
  | inr h => exact hl u h

theorem resolve_calls {f : String → Option MediaResp} {img : Image} {r : ResolveOut}
    {c : List NetCall} (h : resolve f img = .ok (r, c)) :
    c = [] ∨ ∃ d, c = [NetCall.metaFetch d] := by
  unfold resolve at h
  cases hu : img.uris with
  | none =>
    simp only [hu] at h
    exact Except.noConfusion h
  | some uris =>
    simp only [hu] at h
    cases hk : largestMediaKey uris with
    | none =>
      simp only [hk] at h
      unfold archivedFallback at h
      split at h
      · cases h; exact .inl rfl
      · cases h; exact .inl rfl
    | some k =>
      simp only [hk] at h
      cases hl : uris.lookup k with
      | none =>
        simp only [hl] at h
        unfold archivedFallback at h
        split at h
        · cases h; exact .inl rfl
        · cases h; exact .inl rfl
      | some d =>
        simp only [hl] at h
        cases hf : f d with
        | none =>
          simp only [hf] at h
          cases h
          exact .inr ⟨d, rfl⟩
        | some resp =>
          simp only [hf] at h
          cases hr : resp.response with
          | none =>
            simp only [hr] at h
            exact Except.noConfusion h
          | some es =>
            simp only [hr] at h
            cases he : es.lookup k with
            | none =>
              simp only [he] at h
              exact Except.noConfusion h
            | some v =>
              cases v with
              | none =>
                simp only [he] at h
                exact Except.noConfusion h
              | some u =>
                simp only [he] at h
                cases h
                exact .inr ⟨d, rfl⟩

theorem assetFree_of_resolve {f : String → Option MediaResp} {img : Image}
    {r : ResolveOut} {c : List NetCall} (h : resolve f img = .ok (r, c)) :
    assetFree c := by
  cases resolve_calls h with
  | inl h => rw [h]; exact assetFree_nil
  | inr h => obtain ⟨d, rfl⟩ := h; exact assetFree_meta d

theorem processImage_fs {net : Net} {an ap : String} {fs : List String} {img : Image}
    {st : ImgStep} (h : processImage net an ap fs img = .ok st) :
    st.fs = fs ∨ ∃ p, st.fs = p :: fs := by
  unfold processImage at h
  cases hid : deriveUniqueId img with
  | none =>
    simp only [hid] at h
    cases h
    exact .inl rfl
  | some uid =>
    simp only [hid] at h
    unfold processImageWithId at h
    split at h
    · cases h; exact .inl rfl
    · cases hres : resolve net.fetchMedia img with
      | error e =>
        simp only [hres] at h
        exact Except.noConfusion h
      | ok rc =>
        obtain ⟨ro, cc⟩ := rc
        simp only [hres] at h
        cases h
        cases ro with
        | skipFetchFail d => exact .inl rfl
        | skipNoUrl => exact .inl rfl
        | url u =>
          simp only [afterResolve]
          split
          · exact .inr ⟨_, rfl⟩
          · exact .inl rfl

theorem processImages_fs {net : Net} {an ap : String} :
    ∀ {imgs : List Image} {fs fs' : List String} {cs : List NetCall} {os : List ImgOutcome},
    processImages net an ap fs imgs = .ok (fs', cs, os) →
    (∀ x, x ∈ fs → x ∈ fs') ∧ os.length = imgs.length := by
  intro imgs
  induction imgs with
  | nil =>
    intro fs fs' cs os h
    unfold processImages at h
    cases h
    exact ⟨fun x hx => hx, rfl⟩
  | cons img rest ih =>
    intro fs fs' cs os h
    unfold processImages at h
    cases hpi : processImage net an ap fs img with
    | error e =>
      simp only [hpi] at h
      exact Except.noConfusion h
    | ok st =>
      simp only [hpi] at h
      cases hrest : processImages net an ap st.fs rest with
      | error e =>
        simp only [hrest] at h
        exact Except.noConfusion h
      | ok rr =>
        obtain ⟨fs2, cs2, os2⟩ := rr
        simp only [hrest] at h
        cases h
        have hr := ih hrest
        refine ⟨fun x hx => hr.1 x ?_, by simp [hr.2]⟩
        cases processImage_fs hpi with
        | inl hfs => rw [hfs]; exact hx
        | inr hfs => obtain ⟨p, hfs⟩ := hfs; rw [hfs]; exact List.mem_cons_of_mem p hx

theorem paginateLoop_calls {fetch : String → Option PageResp} :
    ∀ {fuel : Nat} {acc : List Image} {next : Option String} {ms : List Image}
      {cs : List NetCall} {ab : Bool},
    paginateLoop fetch fuel acc next = .ok (some (ms, cs, ab)) → assetFree cs := by
  intro fuel
  induction fuel with
  | zero =>
    intro acc next ms cs ab h
    cases next with
    | none =>
      unfold paginateLoop at h
      cases h
      exact assetFree_nil
    | some url =>
      unfold paginateLoop at h
      split at h
      · cases h; exact assetFree_nil
      · simp at h
  | succ f ih =>
    intro acc next ms cs ab h
    cases next with
    | none =>
      unfold paginateLoop at h
      cases h
      exact assetFree_nil
    | some url =>
      unfold paginateLoop at h
      split at h
      · cases h; exact assetFree_nil
      · cases hf : fetch url with
        | none =>
          simp only [hf] at h
          cases h
          exact assetFree_meta url
        | some nd =>
          simp only [hf] at h
          cases hr : nd.response with
          | none =>
            simp only [hr] at h
            exact Except.noConfusion h
          | some body =>
            simp only [hr] at h
            cases hp : body.pages with
            | none =>
              simp only [hp] at h
              exact Except.noConfusion h
            | some pg =>
              simp only [hp] at h
              cases hrec : paginateLoop fetch f (acc ++ body.albumImage.getD []) pg.nextPage with
              | error e =>
                simp only [hrec] at h
                exact Except.noConfusion h
              | ok rr =>
                cases rr with
                | none =>
                  simp only [hrec] at h
                  simp at h
                | some t =>
                  obtain ⟨ms', cs', ab'⟩ := t
                  simp only [hrec] at h
                  cases h
                  exact assetFree_cons_meta (ih hrec)

theorem processAlbum_fs {net : Net} {sp : List String} {outD : String} {fuel : Nat}
    {fs : List String} {a : Album} {ar : AlbumRes}
    (h : processAlbum net sp outD fuel fs a = .ok ar) :
    ∀ x, x ∈ fs → x ∈ ar.fs := by
  unfold processAlbum at h
  split at h
  · cases h; exact fun x hx => hx
  · split at h
    · cases h; exact fun x hx => hx
    · cases hfp : net.fetchPage (a.uri.getD "None" ++ "!images") with
      | none => simp only [hfp] at h; cases h; exact fun x hx => hx
      | some d =>
        simp only [hfp] at h
        split at h
        · cases h; exact fun x hx => hx
        · cases hr : d.response with
          | none =>
            simp only [hr] at h
            exact Except.noConfusion h
          | some body =>
            simp only [hr] at h
            cases hp : body.pages with
            | none =>
              simp only [hp] at h
              exact Except.noConfusion h
            | some pg =>
              simp only [hp] at h
              cases hpl : paginateLoop net.fetchPage fuel (pageImages d) pg.nextPage with
              | error e =>
                simp only [hpl] at h
                exact Except.noConfusion h
              | ok rr =>
                cases rr with
                | none => simp only [hpl] at h; cases h; exact fun x hx => hx
                | some t =>
                  obtain ⟨merged, pcalls, aborted⟩ := t
                  simp only [hpl] at h
                  cases hpis : processImages net
                      (stripWs (a.name.getD "Unnamed_Album"))
                      (joinPath outD (lstripSlash (a.urlPath.getD ""))) fs merged with
                  | error e =>
                    simp only [hpis] at h
                    exact Except.noConfusion h
                  | ok rr2 =>
                    obtain ⟨fs2, ics, outs⟩ := rr2
                    simp only [hpis] at h
                    cases h
                    exact fun x hx => (processImages_fs hpis).1 x hx

theorem runAlbums_fs {net : Net} {sp : List String} {outD : String} {fuel : Nat} :
    ∀ {albums : List Album} {fs fs' : List String} {cs : List NetCall}
      {os : List AlbumOutcome},
    runAlbums net sp outD fuel fs albums = .ok (fs', cs, os) →
    ∀ x, x ∈ fs → x ∈ fs' := by
  intro albums
  induction albums with
  | nil =>
    intro fs fs' cs os h
    unfold runAlbums at h
    cases h
    exact fun x hx => hx
  | cons a rest ih =>
    intro fs fs' cs os h
    unfold runAlbums at h
    cases hpa : processAlbum net sp outD fuel fs a with
    | error e =>
      simp only [hpa] at h
      exact Except.noConfusion h
    | ok ar =>
      simp only [hpa] at h
      cases hrest : runAlbums net sp outD fuel ar.fs rest with
      | error e =>
        simp only [hrest] at h
        exact Except.noConfusion h
      | ok rr =>
        obtain ⟨fs2, cs2, os2⟩ := rr
        simp only [hrest] at h
        cases h
        exact fun x hx => ih hrest x (processAlbum_fs hpa x hx)

theorem processImage_settles {net : Net} {an ap : String} {fs : List String}
    {img : Image} {st : ImgStep} (hok : ∀ u, net.fetchAsset u = true)
    (h : processImage net an ap fs img = .ok st) :
    imgSettled net ap st.fs img := by
  intro uid hid
  unfold processImage at h
  simp only [hid] at h
  unfold processImageWithId at h
  split at h
  · rename_i hin
    cases h
    exact .inl hin
  · cases hres : resolve net.fetchMedia img with
    | error e =>
      simp only [hres] at h
      exact Except.noConfusion h
    | ok rc =>
      obtain ⟨ro, cc⟩ := rc
      simp only [hres] at h
      cases h
      cases ro with
      | skipFetchFail d => exact .inr (.inl ⟨d, cc, rfl⟩)
      | skipNoUrl => exact .inr (.inr ⟨cc, rfl⟩)
      | url u =>
        left
        simp only [afterResolve, hok u, if_true]
        exact List.mem_cons_self _ _

theorem processImage_settled_step (an : String) {net : Net} {ap : String}
    {fsF fs' : List String} {img : Image}
    (hs : imgSettled net ap fsF img) (hsub : ∀ x, x ∈ fsF → x ∈ fs') :
    ∃ st, processImage net an ap fs' img = .ok st ∧ st.fs = fs' ∧ assetFree st.calls := by
  cases hid : deriveUniqueId img with
  | none =>
    exact ⟨_, processImage_noId net an ap fs' img hid, rfl, assetFree_nil⟩
  | some uid =>
    have hpi : processImage net an ap fs' img = processImageWithId net an ap fs' img uid := by
      unfold processImage
      rw [hid]
    by_cases hin : joinPath ap (unique_filename img uid) ∈ fs'
    · refine ⟨⟨fs', [], deriveIdLogs an img, .skippedExists⟩, ?_, rfl, assetFree_nil⟩
      rw [hpi]
      unfold processImageWithId
      rw [if_pos hin]
    · rcases hs uid hid with hdest | ⟨d, c, hres⟩ | ⟨c, hres⟩
      · exact absurd (hsub _ hdest) hin
      · refine ⟨⟨fs', c, deriveIdLogs an img ++
          ["Could not retrieve image data for " ++ d ++ ". Skipping image."],
          .skippedFetchFail d⟩, ?_, rfl, assetFree_of_resolve hres⟩
        rw [hpi]
        unfold processImageWithId
        rw [if_neg hin, hres]
        rfl
      · refine ⟨⟨fs', c, deriveIdLogs an img ++
          ["No download URL found for image '" ++ unique_filename img uid ++
           "' in album '" ++ an ++ "'. Skipping image."], .skippedNoUrl⟩, ?_, rfl,
          assetFree_of_resolve hres⟩
        rw [hpi]
        unfold processImageWithId
        rw [if_neg hin, hres]
        rfl

theorem processImages_settle {net : Net} {an ap : String} :
    ∀ {imgs : List Image} {fs fs' : List String} {cs : List NetCall}
      {os : List ImgOutcome},
    (∀ u, net.fetchAsset u = true) →
    processImages net an ap fs imgs = .ok (fs', cs, os) →
    ∀ img ∈ imgs, imgSettled net ap fs' img := by
  intro imgs
  induction imgs with
  | nil =>
    intro fs fs' cs os _ h img hmem
    cases hmem
  | cons i rest ih =>
    intro fs fs' cs os hok h img hmem
    unfold processImages at h
    cases hpi : processImage net an ap fs i with
    | error e =>
      simp only [hpi] at h
      exact Except.noConfusion h
    | ok st =>
      simp only [hpi] at h
      cases hrest : processImages net an ap st.fs rest with
      | error e =>
        simp only [hrest] at h
        exact Except.noConfusion h
      | ok rr =>
        obtain ⟨fs2, cs2, os2⟩ := rr
        simp only [hrest] at h
        cases h
        rcases List.mem_cons.mp hmem with rfl | hmem'
        · intro uid hid
          rcases processImage_settles hok hpi uid hid with hdest | hskip | hskip
          · exact .inl ((processImages_fs hrest).1 _ hdest)
          · exact .inr (.inl hskip)
          · exact .inr (.inr hskip)
        · exact ih hok hrest img hmem'

theorem processImages_settled_run (an : String) {net : Net} {ap : String} :
    ∀ {imgs : List Image} {fsF fs' : List String},
    (∀ img ∈ imgs, imgSettled net ap fsF img) → (∀ x, x ∈ fsF → x ∈ fs') →
    ∃ cs os, processImages net an ap fs' imgs = .ok (fs', cs, os) ∧ assetFree cs := by
  intro imgs
  induction imgs with
  | nil =>
    intro fsF fs' _ _
    exact ⟨[], [], rfl, assetFree_nil⟩
  | cons i rest ih =>
    intro fsF fs' hset hsub
    obtain ⟨st, hpi, hstfs, hstcalls⟩ :=
      processImage_settled_step an (hset i (List.mem_cons_self i rest)) hsub
    obtain ⟨cs2, os2, hrest, hfree2⟩ :=
      ih (fun img hm => hset img (List.mem_cons_of_mem i hm)) hsub
    refine ⟨st.calls ++ cs2, st.outcome :: os2, ?_, assetFree_append hstcalls hfree2⟩
    unfold processImages
    simp only [hpi]
    rw [hstfs, hrest]

theorem processAlbum_second {net : Net} {sp : List String} {outD : String}
    {fuel : Nat} {fs : List String} {a : Album} {ar : AlbumRes}
    (hok : ∀ u, net.fetchAsset u = true)
    (h : processAlbum net sp outD fuel fs a = .ok ar) :
    ∀ fs', (∀ x, x ∈ ar.fs → x ∈ fs') →
    ∃ ar', processAlbum net sp outD fuel fs' a = .ok ar' ∧ ar'.fs = fs'
      ∧ assetFree ar'.calls := by
  intro fs' hsub
  unfold processAlbum at h
  split at h
  · rename_i hc
    cases h
    refine ⟨⟨fs', [], .filtered⟩, ?_, rfl, assetFree_nil⟩
    unfold processAlbum
    rw [if_pos hc]
  · rename_i hc
    split at h
    · rename_i hc2
      cases h
      refine ⟨⟨fs', [], .noUrlPath⟩, ?_, rfl, assetFree_nil⟩
      unfold processAlbum
      rw [if_neg hc, if_pos hc2]
    · rename_i hc2
      cases hfp : net.fetchPage (a.uri.getD "None" ++ "!images") with
      | none =>
        simp only [hfp] at h
        cases h
        refine ⟨⟨fs', [NetCall.metaFetch (a.uri.getD "None" ++ "!images")],
          .imagesFetchFail⟩, ?_, rfl, assetFree_meta _⟩
        unfold processAlbum
        rw [if_neg hc, if_neg hc2]
        simp only [hfp]
      | some d =>
        simp only [hfp] at h
        split at h
        · rename_i hempty
          cases h
          refine ⟨⟨fs', [NetCall.metaFetch (a.uri.getD "None" ++ "!images")],
            .noImages⟩, ?_, rfl, assetFree_meta _⟩
          unfold processAlbum
          rw [if_neg hc, if_neg hc2]
          simp only [hfp]
          rw [if_pos hempty]
        · rename_i hempty
          cases hr : d.response with
          | none =>
            simp only [hr] at h
            exact Except.noConfusion h
          | some body =>
            simp only [hr] at h
            cases hp : body.pages with
            | none =>
              simp only [hp] at h
              exact Except.noConfusion h
            | some pg =>
              simp only [hp] at h
              cases hpl : paginateLoop net.fetchPage fuel (pageImages d) pg.nextPage with
              | error e =>
                simp only [hpl] at h
                exact Except.noConfusion h
              | ok rr =>
                cases rr with
                | none =>
                  simp only [hpl] at h
                  cases h
                  refine ⟨⟨fs', [NetCall.metaFetch (a.uri.getD "None" ++ "!images")],
                    .outOfFuel (pageImages d)⟩, ?_, rfl, assetFree_meta _⟩
                  unfold processAlbum
                  rw [if_neg hc, if_neg hc2]
                  simp only [hfp]
                  rw [if_neg hempty]
                  simp only [hr, hp, hpl]
                | some t =>
                  obtain ⟨merged, pcalls, aborted⟩ := t
                  simp only [hpl] at h
                  cases hpis : processImages net (stripWs (a.name.getD "Unnamed_Album"))
                      (joinPath outD (lstripSlash (a.urlPath.getD ""))) fs merged with
                  | error e =>
                    simp only [hpis] at h
                    exact Except.noConfusion h
                  | ok rr2 =>
                    obtain ⟨fs1, ics, outs⟩ := rr2
                    simp only [hpis] at h
                    cases h
                    have hset := processImages_settle hok hpis
                    obtain ⟨cs2, os2, hrun2, hfree2⟩ :=
                      processImages_settled_run
                        (stripWs (a.name.getD "Unnamed_Album")) hset hsub
                    refine ⟨⟨fs', NetCall.metaFetch (a.uri.getD "None" ++ "!images") ::
                        (pcalls ++ cs2), .processed merged aborted os2⟩, ?_, rfl,
                      assetFree_cons_meta (assetFree_append (paginateLoop_calls hpl) hfree2)⟩
                    unfold processAlbum
                    rw [if_neg hc, if_neg hc2]
                    simp only [hfp]
                    rw [if_neg hempty]
                    simp only [hr, hp, hpl, hrun2]

theorem runAlbums_second {net : Net} {sp : List String} {outD : String} {fuel : Nat}
    (hok : ∀ u, net.fetchAsset u = true) :
    ∀ {albums : List Album} {fs fsF : List String} {cs : List NetCall}
      {os : List AlbumOutcome},
    runAlbums net sp outD fuel fs albums = .ok (fsF, cs, os) →
    ∀ fs', (∀ x, x ∈ fsF → x ∈ fs') →
    ∃ cs' os', runAlbums net sp outD fuel fs' albums = .ok (fs', cs', os')
      ∧ assetFree cs' := by
  intro albums
  induction albums with
  | nil =>
    intro fs fsF cs os h fs' hsub
    unfold runAlbums at h
    cases h
    exact ⟨[], [], rfl, assetFree_nil⟩
  | cons a rest ih =>
    intro fs fsF cs os h fs' hsub
    unfold runAlbums at h
    cases hpa : processAlbum net sp outD fuel fs a with
    | error e =>
      simp only [hpa] at h
      exact Except.noConfusion h
    | ok ar =>
      simp only [hpa] at h
      cases hrest : runAlbums net sp outD fuel ar.fs rest with
      | error e =>
        simp only [hrest] at h
        exact Except.noConfusion h
      | ok rr =>
        obtain ⟨fs2, cs2, os2⟩ := rr
        simp only [hrest] at h
        cases h
        have harfs : ∀ x, x ∈ ar.fs → x ∈ fs' :=
          fun x hx => hsub x (runAlbums_fs hrest x hx)
        obtain ⟨ar', hpa', harfs', hfree1⟩ := processAlbum_second hok hpa fs' harfs
        obtain ⟨cs2', os2', hrun2, hfree2⟩ := ih hrest fs' hsub
        refine ⟨ar'.calls ++ cs2', ar'.outcome :: os2', ?_,
          assetFree_append hfree1 hfree2⟩
        unfold runAlbums
        simp only [hpa']
        rw [harfs', hrun2]

/-- Claim C1: an image whose computed destination path already exists is
skipped without any network call, in both the main sync and the recovery
pass; consequently a second run over the same deterministic remote state
(all first-run asset fetches having succeeded) issues zero asset
downloads and leaves the file set unchanged. -/
theorem claim_C1 :
    (∀ (net : Net) (an ap : String) (fs : List String) (img : Image) (uid : String),
      deriveUniqueId img = some uid → destPath ap img uid ∈ fs →
      processImage net an ap fs img = .ok ⟨fs, [], deriveIdLogs an img, .skippedExists⟩)
    ∧ (∀ (assetOk : String → Bool) (outputDir : String) (fs : List String) (url : String),
      retryImagePath outputDir url ∈ fs →
      download_image assetOk outputDir fs url =
        ⟨fs, [], ["Image already exists: " ++ retryImagePath outputDir url ++ ". Skipping."],
         .skippedExists⟩)
    ∧ (∀ (net : Net) (sp : List String) (outD : String) (fuel : Nat)
        (albums : List Album) (fs fsF : List String) (cs : List NetCall)
        (os : List AlbumOutcome),
      (∀ u, net.fetchAsset u = true) →
      runAlbums net sp outD fuel fs albums = .ok (fsF, cs, os) →
      ∃ cs' os', runAlbums net sp outD fuel fsF albums = .ok (fsF, cs', os')
        ∧ assetFree cs') := by
  refine ⟨fun net an ap fs img uid hid hdest => ?_,
          fun assetOk outputDir fs url hmem => ?_,
          fun net sp outD fuel albums fs fsF cs os hok h => ?_⟩
  · have hpi : processImage net an ap fs img = processImageWithId net an ap fs img uid := by
      unfold processImage
      rw [hid]
    have hdest' : joinPath ap (unique_filename img uid) ∈ fs := hdest
    rw [hpi]
    unfold processImageWithId
    rw [if_pos hdest']
  · unfold download_image
    rw [if_pos hmem]
  · exact runAlbums_second hok h fsF (fun x hx => hx)

/-- Witness for C1: an image whose destination is already on disk is
skipped with an empty call trace. -/
theorem claim_C1_witness :
    deriveUniqueId imgC1 = some "abcdef12"
    ∧ destPath "out/A" imgC1 "abcdef12" ∈ ["out/A/a_abcdef12.jpg"]
    ∧ processImage netTrivial "A" "out/A" ["out/A/a_abcdef12.jpg"] imgC1 =
        .ok ⟨["out/A/a_abcdef12.jpg"], [], deriveIdLogs "A" imgC1, .skippedExists⟩ :=
  ⟨rfl, by decide,
   claim_C1.1 netTrivial "A" "out/A" ["out/A/a_abcdef12.jpg"] imgC1 "abcdef12" rfl
     (by decide)⟩

theorem paginate_chain_fail (fetch : String → Option PageResp) :
    ∀ (pages : List (List Image)) (next : Option String) (bad : String),
    PageChainFail fetch next pages bad →
    ∀ (acc : List Image) (fuel : Nat), pages.length < fuel →
    ∃ calls, paginateLoop fetch fuel acc next =
      .ok (some (acc ++ pages.flatten, calls, true)) := by
  intro pages next bad hchain
  induction hchain with
  | here url hne hfetch =>
    intro acc fuel hlen
    obtain ⟨f, rfl⟩ : ∃ f, fuel = f + 1 := ⟨fuel - 1, by omega⟩
    refine ⟨[NetCall.metaFetch url], ?_⟩
    simp only [paginateLoop]
    rw [if_neg hne, hfetch]
    simp
  | step url items nxt rest bad hne hfetch _ ih =>
    intro acc fuel hlen
    obtain ⟨f, rfl⟩ : ∃ f, fuel = f + 1 := ⟨fuel - 1, by simp at hlen; omega⟩
    obtain ⟨calls, hcalls⟩ := ih (acc ++ items) f (by simp at hlen; omega)
    refine ⟨NetCall.metaFetch url :: calls, ?_⟩
    simp only [paginateLoop]
    rw [if_neg hne, hfetch]
    simp [mkPage, hcalls, List.append_assoc]

theorem resolve_ok_of_resolveOk (f : String → Option MediaResp) (img : Image)
    (h : resolveOk f img = true) : ∃ r, resolve f img = .ok r := by
  unfold resolveOk at h
  unfold resolve
  cases hu : img.uris with
  | none => simp [hu] at h
  | some uris =>
    simp only [hu] at h ⊢
    cases hk : largestMediaKey uris with
    | none =>
      simp only [hk]
      unfold archivedFallback
      split
      · exact ⟨_, rfl⟩
      · exact ⟨_, rfl⟩
    | some k =>
      simp only [hk] at h ⊢
      cases hl : uris.lookup k with
      | none =>
        simp only [hl]
        unfold archivedFallback
        split
        · exact ⟨_, rfl⟩
        · exact ⟨_, rfl⟩
      | some d =>
        simp only [hl] at h ⊢
        cases hf : f d with
        | none =>
          simp only [hf]
          exact ⟨_, rfl⟩
        | some resp =>
          simp only [hf] at h ⊢
          cases hr : resp.response with
          | none => simp [hr] at h
          | some es =>
            simp only [hr] at h ⊢
            cases he : es.lookup k with
            | none => simp [he] at h
            | some v =>
              cases v with
              | none => simp [he] at h
              | some u =>
                simp only [he]
                exact ⟨_, rfl⟩

theorem processImage_ok (net : Net) (an ap : String) (fs : List String) (img : Image)
    (h : resolveOk net.fetchMedia img = true) :
    ∃ st, processImage net an ap fs img = .ok st := by
  cases hid : deriveUniqueId img with
  | none => exact ⟨_, processImage_noId net an ap fs img hid⟩
  | some uid =>
    have hpi : processImage net an ap fs img = processImageWithId net an ap fs img uid := by
      unfold processImage
      rw [hid]
    rw [hpi]
    unfold processImageWithId
    by_cases hin : joinPath ap (unique_filename img uid) ∈ fs
    · rw [if_pos hin]
      exact ⟨_, rfl⟩
    · rw [if_neg hin]
      obtain ⟨r, hres⟩ := resolve_ok_of_resolveOk net.fetchMedia img h
      rw [hres]
      exact ⟨_, rfl⟩

theorem processImages_ok (net : Net) (an ap : String) :
    ∀ (imgs : List Image) (fs : List String),
    (∀ img ∈ imgs, resolveOk net.fetchMedia img = true) →
    ∃ fs' cs os, processImages net an ap fs imgs = .ok (fs', cs, os)
      ∧ os.length = imgs.length := by
  intro imgs
  induction imgs with
  | nil =>
    intro fs _
    exact ⟨fs, [], [], rfl, rfl⟩
  | cons i rest ih =>
    intro fs hall
    obtain ⟨st, hpi⟩ := processImage_ok net an ap fs i (hall i (List.mem_cons_self i rest))
    obtain ⟨fs', cs, os, hrest, hlen⟩ :=
      ih st.fs (fun img hm => hall img (List.mem_cons_of_mem i hm))
    refine ⟨fs', st.calls ++ cs, st.outcome :: os, ?_, by simp [hlen]⟩
    unfold processImages
    simp only [hpi, hrest]

theorem paginateLoop_ok (fetch : String → Option PageResp)
    (hwf : ∀ u p, fetch u = some p → pageWF p) :
    ∀ (fuel : Nat) (acc : List Image) (next : Option String),
    ∃ r, paginateLoop fetch fuel acc next = .ok r := by
  intro fuel
  induction fuel with
  | zero =>
    intro acc next
    cases next with
    | none => exact ⟨_, rfl⟩
    | some url =>
      unfold paginateLoop
      split
      · exact ⟨_, rfl⟩
      · exact ⟨_, rfl⟩
  | succ f ih =>
    intro acc next
    cases next with
    | none => exact ⟨_, rfl⟩
    | some url =>
      unfold paginateLoop
      split
      · exact ⟨_, rfl⟩
      · cases hf : fetch url with
        | none => exact ⟨_, rfl⟩
        | some nd =>
          obtain ⟨body, hresp, hpgs⟩ := hwf url nd hf
          obtain ⟨pg, hpg⟩ := Option.isSome_iff_exists.mp hpgs
          simp only [hresp, hpg]
          obtain ⟨r0, hrec⟩ := ih (acc ++ body.albumImage.getD []) pg.nextPage
          cases r0 with
          | none =>
            simp only [hrec]
            exact ⟨_, rfl⟩
          | some t =>
            obtain ⟨ms, cs, ab⟩ := t
            simp only [hrec]
            exact ⟨_, rfl⟩

theorem paginateLoop_imgs (fetch : String → Option PageResp) :
    ∀ (fuel : Nat) (acc : List Image) (next : Option String) (ms : List Image)
      (cs : List NetCall) (ab : Bool),
    paginateLoop fetch fuel acc next = .ok (some (ms, cs, ab)) →
    ∀ img ∈ ms, img ∈ acc ∨ ∃ u p, fetch u = some p ∧ img ∈ pageImages p := by
  intro fuel
  induction fuel with
  | zero =>
    intro acc next ms cs ab h img hm
    cases next with
    | none =>
      unfold paginateLoop at h
      cases h
      exact .inl hm
    | some url =>
      unfold paginateLoop at h
      split at h
      · cases h; exact .inl hm
      · simp at h
  | succ f ih =>
    intro acc next ms cs ab h img hm
    cases next with
    | none =>
      unfold paginateLoop at h
      cases h
      exact .inl hm
    | some url =>
      unfold paginateLoop at h
      split at h
      · cases h; exact .inl hm
      · cases hf : fetch url with
        | none =>
          simp only [hf] at h
          cases h
          exact .inl hm
        | some nd =>
          simp only [hf] at h
          cases hr : nd.response with
          | none =>
            simp only [hr] at h
            exact Except.noConfusion h
          | some body =>
            simp only [hr] at h
            cases hp : body.pages with
            | none =>
              simp only [hp] at h
              exact Except.noConfusion h
            | some pg =>
              simp only [hp] at h
              cases hrec : paginateLoop fetch f (acc ++ body.albumImage.getD [])
                  pg.nextPage with
              | error e =>
                simp only [hrec] at h
                exact Except.noConfusion h
              | ok rr =>
                cases rr with
                | none =>
                  simp only [hrec] at h
                  simp at h
                | some t =>
                  obtain ⟨ms', cs', ab'⟩ := t
                  simp only [hrec] at h
                  cases h
                  rcases ih _ _ _ _ _ hrec img hm with hacc | hfetched
                  · rcases List.mem_append.mp hacc with h1 | h2
                    · exact .inl h1
                    · right
                      refine ⟨url, nd, hf, ?_⟩
                      unfold pageImages
                      rw [hr]
                      exact h2
                  · exact .inr hfetched

theorem processAlbum_ok (net : Net) (sp : List String) (outD : String) (fuel : Nat)
    (fs : List String) (a : Album) (hwf : NetWF net) :
    ∃ ar, processAlbum net sp outD fuel fs a = .ok ar := by
  unfold processAlbum
  split
  · exact ⟨_, rfl⟩
  · split
    · exact ⟨_, rfl⟩
    · cases hfp : net.fetchPage (a.uri.getD "None" ++ "!images") with
      | none => exact ⟨_, rfl⟩
      | some d =>
        dsimp only
        by_cases hempty : pageImages d = []
        · rw [if_pos hempty]
          exact ⟨_, rfl⟩
        · rw [if_neg hempty]
          obtain ⟨hpwf, himgs⟩ := hwf _ _ hfp
          obtain ⟨body, hresp, hpgs⟩ := hpwf
          obtain ⟨pg, hpg⟩ := Option.isSome_iff_exists.mp hpgs
          simp only [hresp, hpg]
          obtain ⟨r0, hpl⟩ := paginateLoop_ok net.fetchPage
            (fun u p hp => (hwf u p hp).1) fuel (pageImages d) pg.nextPage
          cases r0 with
          | none =>
            simp only [hpl]
            exact ⟨_, rfl⟩
          | some t =>
            obtain ⟨merged, pcalls, aborted⟩ := t
            have hall : ∀ img ∈ merged, resolveOk net.fetchMedia img = true := by
              intro img hm
              rcases paginateLoop_imgs net.fetchPage fuel (pageImages d) pg.nextPage
                  merged pcalls aborted hpl img hm with hacc | ⟨u, p, hup, hin⟩
              · exact himgs img hacc
              · exact (hwf u p hup).2 img hin
            obtain ⟨fs', cs, os, hpis, _⟩ := processImages_ok net
              (stripWs (a.name.getD "Unnamed_Album"))
              (joinPath outD (lstripSlash (a.urlPath.getD ""))) merged fs hall
            simp only [hpl, hpis]
            exact ⟨_, rfl⟩

theorem runAlbums_ok (net : Net) (sp : List String) (outD : String) (fuel : Nat)
    (hwf : NetWF net) :
    ∀ (albums : List Album) (fs : List String),
    ∃ fs' cs os, runAlbums net sp outD fuel fs albums = .ok (fs', cs, os)
      ∧ os.length = albums.length := by
  intro albums
  induction albums with
  | nil =>
    intro fs
    exact ⟨fs, [], [], rfl, rfl⟩
  | cons a rest ih =>
    intro fs
    obtain ⟨ar, hpa⟩ := processAlbum_ok net sp outD fuel fs a hwf
    obtain ⟨fs', cs, os, hrest, hlen⟩ := ih ar.fs
    refine ⟨fs', ar.calls ++ cs, ar.outcome :: os, ?_, by simp [hlen]⟩
    unfold runAlbums
    simp only [hpa, hrest]

/-- Claim C4, amended: recoverable failures are absorbed at their scope —
a failed next-page fetch stops pagination for that album but keeps and
processes the already-gathered items without crashing; over any remote
state whose per-image metadata is well formed (every listed image has a
`Uris` mapping and a well-formed descriptor response), the whole run
completes with one outcome per album no matter which fetches fail; and a
failed asset download is logged with the failure-line marker and skipped.
The original claim's tolerance of arbitrary malformed per-image metadata
is refuted by `claim_C4_counterexample`: a record without a `Uris` key
raises an uncaught `KeyError` that aborts the run. -/
theorem claim_C4 :
    (∀ (fetch : String → Option PageResp) (pages : List (List Image))
       (next : Option String) (bad : String) (acc : List Image) (fuel : Nat),
      PageChainFail fetch next pages bad → pages.length < fuel →
      ∃ calls, paginateLoop fetch fuel acc next =
        .ok (some (acc ++ pages.flatten, calls, true)))
    ∧ (∀ (net : Net), NetWF net → ∀ (sp : List String) (outD : String) (fuel : Nat)
        (albums : List Album) (fs : List String),
      ∃ fs' cs os, runAlbums net sp outD fuel fs albums = .ok (fs', cs, os)
        ∧ os.length = albums.length)
    ∧ (∀ (net : Net) (an ap : String) (fs : List String) (img : Image)
        (uid u : String) (c : List NetCall),
      deriveUniqueId img = some uid →
      joinPath ap (unique_filename img uid) ∉ fs →
      resolve net.fetchMedia img = .ok (.url u, c) → net.fetchAsset u = false →
      processImage net an ap fs img = .ok ⟨fs, c ++ [.assetGet u],
        deriveIdLogs an img ++ ["Could not fetch image from " ++ u ++ ": error"],
        .failedDownload u⟩) := by
  refine ⟨fun fetch pages next bad acc fuel hchain hlen =>
      paginate_chain_fail fetch pages next bad hchain acc fuel hlen,
    fun net hwf sp outD fuel albums fs => runAlbums_ok net sp outD fuel hwf albums fs,
    fun net an ap fs img uid u c hid hnotin hres hfa => ?_⟩
  have hpi : processImage net an ap fs img = processImageWithId net an ap fs img uid := by
    unfold processImage
    rw [hid]
  rw [hpi]
  unfold processImageWithId
  rw [if_neg hnotin, hres]
  simp [afterResolve, hfa]

/-- Witness for C4: a chain that delivers one page and then hits the
unavailable sentinel keeps the gathered page and stops with the aborted
flag. -/
theorem claim_C4_witness :
    PageChainFail fetchFailAfterOne (some "p2") [[mkImgNamed "x"]] "p3"
    ∧ 1 < 3
    ∧ ∃ calls, paginateLoop fetchFailAfterOne 3 [] (some "p2") =
        .ok (some ([] ++ [[mkImgNamed "x"]].flatten, calls, true)) := by
  have hchain : PageChainFail fetchFailAfterOne (some "p2") [[mkImgNamed "x"]] "p3" :=
    .step "p2" [mkImgNamed "x"] (some "p3") [] "p3" (by decide) rfl
      (.here "p3" (by decide) rfl)
  exact ⟨hchain, by decide,
    claim_C4.1 fetchFailAfterOne [[mkImgNamed "x"]] (some "p2") "p3" [] 3 hchain
      (by decide)⟩

/-- Counterexample to C4 as stated: an image record lacking the `Uris`
key aborts the whole run with an uncaught `KeyError` — the second album
is never processed, so a malformed per-image record does stop album- and
user-level processing. -/
theorem claim_C4_counterexample :
    imgNoUris.uris = none
    ∧ runAlbums netBadUris [] "output" 5 [] [albBad, albGood] =
        .error (.keyError "Uris") :=
  ⟨rfl, rfl⟩

end Smdl




